import Mathlib

/-!
# MetaForge compiler: verification of specification claims

Shallow embedding of the parts of the MetaForge compiler
(`src/compiler/...`) that the specification claims C1..C10 talk about:

* `semantic_analyzer.py` — `_are_types_compatible` (C7);
* `backend/windows_backend.py` + `backend/pe_generator.py` — import
  registration and PE byte layout (C1, C8);
* `backend/x64_assembler.py` — the two-pass assembler (C2);
* `optimization.py` — `IROptimizer`: CFG construction, constant folding,
  dead-code elimination, common-subexpression elimination (C3, C4, C9);
* `backend/register_allocator.py` — live ranges, interference graph and
  Chaitin-style colouring (C5);
* `lexer.py` — `MetaForgeLexer.tokenize` (C6, C10).

Python `dict`s (which iterate in insertion order) are modelled as
association lists, Python `set`s as lists of which only membership is
consumed, machine integers as `Nat`/`Int` with explicit masking where the
source masks, and Python exceptions as `Except Unit` results.
-/

namespace MetaForge

/-! ## Semantic analyzer: `_are_types_compatible` (semantic_analyzer.py 249-260) -/

namespace Semantic

/-- The set literal `{'i32', 'i64', 'f32', 'f64'}` from
`_are_types_compatible` (only membership is consumed). -/
def numericTypes : List String := ["i32", "i64", "f32", "f64"]

/-- `SemanticAnalyzer._are_types_compatible(type1, type2, operation)`:
identical names match, then both-numeric, otherwise `False`.  The
`operation` argument is accepted and ignored, as in the source. -/
def areTypesCompatible (type1 type2 _operation : String) : Bool :=
  if type1 = type2 then true
  else if type1 ∈ numericTypes ∧ type2 ∈ numericTypes then true
  else false

end Semantic

/-! ## Windows backend import registration (windows_backend.py 67-70,
pe_generator.py 262-265) -/

namespace PEGen

/-- One character of a Python string, as a one-character string: iterating
a Python `str` yields its characters. -/
def strChars (s : String) : List String := s.data.map (fun c => String.mk [c])

/-- `PEGenerator.add_import(dll, functions)`: create the key if absent,
then `self.imports[dll].extend(functions)`.  The `imports` dict is an
insertion-ordered association list.  The `functions` argument is whatever
iterable the caller passed (the annotation says `List[str]`). -/
def addImport (imports : List (String × List String)) (dll : String)
    (functions : List String) : List (String × List String) :=
  if imports.any (fun p => p.1 == dll) then
    imports.map (fun p => if p.1 == dll then (p.1, p.2 ++ functions) else p)
  else
    imports ++ [(dll, functions)]

/-- Lines 67-70 of `WindowsBackend.compile`: the imports dict after
`pe_gen.add_import("kernel32.dll", "ExitProcess")` and, when
`len(self.string_literals) > 0`, `pe_gen.add_import("msvcrt.dll", "printf")`.
Both calls pass a bare `str` where `add_import` expects a `List[str]`, so
`extend` iterates the string character by character. -/
def windowsBackendImports (stringLiterals : List (String × String)) :
    List (String × List String) :=
  let imports := addImport [] "kernel32.dll" (strChars "ExitProcess")
  if 0 < stringLiterals.length then
    addImport imports "msvcrt.dll" (strChars "printf")
  else imports

/-! ## PE container writer (pe_generator.py).

`pe_generator.py` defines `generate` twice; the second definition
(`generate(self, output_file, code, data)`, lines 454-556) overrides the
first, and likewise the second `_calculate_headers_size` (lines 558-566)
is the live one.  The byte stream written to the output file is modelled
as a `List Nat` of byte values. -/

/-- `struct.pack('<H', n)` for an in-range value. -/
def le16 (n : Nat) : List Nat := [n % 256, n / 256 % 256]

/-- `struct.pack('<I', n)` for an in-range value. -/
def le32 (n : Nat) : List Nat :=
  [n % 256, n / 2 ^ 8 % 256, n / 2 ^ 16 % 256, n / 2 ^ 24 % 256]

/-- `struct.pack('<Q', n)` for an in-range value. -/
def le64 (n : Nat) : List Nat :=
  [n % 256, n / 2 ^ 8 % 256, n / 2 ^ 16 % 256, n / 2 ^ 24 % 256,
   n / 2 ^ 32 % 256, n / 2 ^ 40 % 256, n / 2 ^ 48 % 256, n / 2 ^ 56 % 256]

/-- `s.encode('ascii')` (all strings passed here are ASCII). -/
def asciiBytes (s : String) : List Nat := s.data.map (fun c => c.toNat)

/-- `(value + alignment - 1) & ~(alignment - 1)` for a power-of-two
alignment, written arithmetically for `Nat`. -/
def alignUp (value alignment : Nat) : Nat :=
  (value + alignment - 1) / alignment * alignment

/-- The little-endian 32-bit value stored at byte offset `off` (reading a
field of the produced file). -/
def readLe32 (bs : List Nat) (off : Nat) : Nat :=
  match (bs.drop off).take 4 with
  | [b0, b1, b2, b3] => b0 + b1 * 2 ^ 8 + b2 * 2 ^ 16 + b3 * 2 ^ 24
  | _ => 0

structure PESection where
  name : String
  virtualAddress : Nat
  virtualSize : Nat
  rawDataSize : Nat
  rawDataPtr : Nat
  characteristics : Nat
  data : List Nat
deriving Repr, DecidableEq

/-- The 64-byte DOS stub of `_write_dos_header` (lines 574-583). -/
def dosStub : List Nat :=
  [0x0E, 0x1F, 0xBA, 0x0E, 0x00, 0xB4, 0x09, 0xCD,
   0x21, 0xB8, 0x01, 0x4C, 0xCD, 0x21, 0x54, 0x68,
   0x69, 0x73, 0x20, 0x70, 0x72, 0x6F, 0x67, 0x72,
   0x61, 0x6D, 0x20, 0x63, 0x61, 0x6E, 0x6E, 0x6F,
   0x74, 0x20, 0x62, 0x65, 0x20, 0x72, 0x75, 0x6E,
   0x20, 0x69, 0x6E, 0x20, 0x44, 0x4F, 0x53, 0x20,
   0x6D, 0x6F, 0x64, 0x65, 0x2E, 0x0D, 0x0D, 0x0A,
   0x24, 0x00, 0x00, 0x00, 0x00, 0x00, 0x00, 0x00]

/-- `PEGenerator._write_dos_header` (lines 568-587): the MZ word, the
64-byte stub, then the 4-byte `e_lfanew` value 0x80 — written in that
order, so `e_lfanew` lands at file offset 0x42, not 0x3C. -/
def writeDosHeader : List Nat := le16 0x5A4D ++ dosStub ++ le32 0x80

/-- `PEGenerator._calculate_headers_size` (second definition, lines
558-566): fixed header sizes plus one 0x28-byte header per section,
rounded up to 512. -/
def calculateHeadersSize (sections : List PESection) : Nat :=
  alignUp (0x40 + 0x4 + 0x14 + 0xF0 + sections.length * 0x28) 512

/-- `PEGenerator._calculate_image_size` (lines 680-687). -/
def calculateImageSize (sections : List PESection) : Nat :=
  alignUp (sections.foldl
    (fun size s =>
      if s.virtualAddress + s.virtualSize > size
      then s.virtualAddress + s.virtualSize else size) 0) 0x1000

/-- `PEGenerator._write_nt_headers` (lines 589-642), with
`entry_point = 0x1000` as set by `generate`. -/
def writeNtHeaders (sections : List PESection)
    (imports : List (String × List String)) : List Nat :=
  le32 0x00004550 ++
  le16 0x8664 ++
  le16 sections.length ++
  le32 0 ++ le32 0 ++ le32 0 ++
  le16 0xF0 ++
  le16 (0x0002 ||| 0x0020) ++
  le16 0x20B ++ [1] ++ [0] ++
  le32 ((sections.filter (fun s => s.characteristics &&& 0x20 ≠ 0)).foldl
    (fun a s => a + s.rawDataSize) 0) ++
  le32 ((sections.filter (fun s => s.characteristics &&& 0x40 ≠ 0)).foldl
    (fun a s => a + s.rawDataSize) 0) ++
  le32 0 ++
  le32 0x1000 ++
  le32 0x1000 ++
  le64 0x140000000 ++
  le32 0x1000 ++ le32 0x200 ++
  le16 6 ++ le16 0 ++ le16 0 ++ le16 0 ++ le16 6 ++ le16 0 ++
  le32 0 ++
  le32 (calculateImageSize sections) ++
  le32 (calculateHeadersSize sections) ++
  le32 0 ++
  le16 0x0003 ++
  le16 0x8160 ++
  le64 0x100000 ++ le64 0x1000 ++ le64 0x100000 ++ le64 0x1000 ++
  le32 0 ++ le32 16 ++
  (List.range 16).flatMap (fun i =>
    if i = 1 ∧ imports ≠ [] then le32 0x3000 ++ le32 0x100 else le64 0)

/-- `PEGenerator._write_section_headers` (lines 644-657). -/
def writeSectionHeaders (sections : List PESection) : List Nat :=
  sections.flatMap (fun s =>
    (((asciiBytes s.name).take 8) ++
      List.replicate (8 - ((asciiBytes s.name).take 8).length) 0) ++
    le32 s.virtualSize ++ le32 s.virtualAddress ++
    le32 s.rawDataSize ++ le32 s.rawDataPtr ++
    le32 0 ++ le32 0 ++ le16 0 ++ le16 0 ++ le32 s.characteristics)

/-- The `.idata` byte image built by `_add_import_section` (lines
273-364): import directory table, import lookup tables, then hint/name
entries; the tail of the zero-initialised buffer sized for the DLL name
strings is never written and stays zero. -/
def importSectionData (imports : List (String × List String)) : List Nat :=
  let idtSize := (imports.length + 1) * 20
  let iltOffsets : List Nat :=
    (imports.foldl (fun (acc : List Nat × Nat) p =>
      (acc.1 ++ [acc.2], acc.2 + (p.2.length + 1) * 8)) ([], idtSize)).1
  let hintNameOffset : Nat :=
    idtSize + imports.foldl (fun a p => a + (p.2.length + 1) * 8) 0
  -- `name_rvas[dll][func]`: offsets relative to `hint_name_offset`,
  -- accumulated across all DLLs in insertion order
  let hintEntries : List (List (String × Nat)) :=
    (imports.foldl (fun (acc : List (List (String × Nat)) × Nat) p =>
      let inner := p.2.foldl (fun (es : List (String × Nat) × Nat) f =>
        (es.1 ++ [(f, es.2)], es.2 + 2 + f.length + 1)) ([], acc.2)
      (acc.1 ++ [inner.1], inner.2)) ([], 0)).1
  let iltBytes : List Nat :=
    hintEntries.flatMap (fun es =>
      es.flatMap (fun fr => le64 fr.2) ++ List.replicate 8 0)
  let hintBytes : List Nat :=
    hintEntries.flatMap (fun es =>
      es.flatMap (fun fr => le16 0 ++ asciiBytes fr.1 ++ [0]))
  let idtBytes : List Nat :=
    ((imports.zip iltOffsets).flatMap (fun p =>
      le32 p.2 ++ le32 0 ++ le32 0 ++ le32 hintNameOffset ++ le32 p.2)) ++
    List.replicate 20 0
  idtBytes ++ iltBytes ++ hintBytes ++
    List.replicate (imports.foldl (fun a p => a + p.1.length + 1) 0) 0

/-- The `.idata` section appended by `_add_import_section` (lines 355-364). -/
def importSection (imports : List (String × List String)) : PESection :=
  let d := importSectionData imports
  ⟨".idata", 0x3000, d.length, d.length, 0, 0xC0000040, d⟩

/-- The raw-data-pointer assignment loop of `generate` (lines 499-504). -/
def layoutSections (sections : List PESection) (start : Nat) :
    List PESection :=
  (sections.foldl (fun (acc : List PESection × Nat) s =>
    let ptr := alignUp acc.2 512
    (acc.1 ++ [{ s with rawDataPtr := ptr }], ptr + s.rawDataSize))
    ([], start)).1

/-- The section-writing loop of `generate` (lines 519-532): pad up to each
section's raw pointer, write its data, pad the section to 512 bytes. -/
def sectionBytes : List PESection → Nat → List Nat
  | [], _ => []
  | s :: rest, pos =>
    let pad := if s.rawDataPtr > pos then s.rawDataPtr - pos else 0
    let endPad := alignUp s.rawDataSize 512 - s.rawDataSize
    let chunk := List.replicate pad 0 ++ s.data ++ List.replicate endPad 0
    chunk ++ sectionBytes rest (pos + chunk.length)

/-- The byte stream written by the live `PEGenerator.generate(output_file,
code, data)` (lines 454-556): fresh `.text`/`.data` sections, the
`.idata` section when imports are present, layout, then DOS header, NT
headers, section headers and padded section data. -/
def generatePE (imports : List (String × List String))
    (code data : List Nat) : List Nat :=
  let text : PESection :=
    ⟨".text", 0x1000, code.length, code.length, 0, 0x60000020, code⟩
  let dataSec : PESection :=
    ⟨".data", 0x2000, data.length, data.length, 0, 0xC0000040, data⟩
  let sections0 := [text, dataSec] ++
    (if imports = [] then [] else [importSection imports])
  let sections := layoutSections sections0 (calculateHeadersSize sections0)
  let headerPart := writeDosHeader ++ writeNtHeaders sections imports ++
    writeSectionHeaders sections
  headerPart ++ sectionBytes sections headerPart.length

end PEGen

/-! ## IR optimizer (optimization.py, class `IROptimizer`, lines 219-433) -/

/-- The numeric value of a digit run (most significant first). -/
def natOfDigits (cs : List Char) : Nat :=
  cs.foldl (fun a c => a * 10 + (c.toNat - 48)) 0

/-- Splitting a character list at every `'.'`. -/
def splitDots : List Char → List (List Char)
  | [] => [[]]
  | c :: rest =>
    if c = '.' then [] :: splitDots rest
    else
      match splitDots rest with
      | p :: ps => (c :: p) :: ps
      | [] => [[c]]

/-- Python `float(s)` on the decimal numeral strings this compiler feeds
it, idealised over `ℚ` (IEEE rounding is not modelled; no claim below
depends on the value, only on definedness and on comparison with zero).
Returns `none` where `float` raises `ValueError` on this fragment —
notably on a numeral with two or more dots. -/
def pyFloat (s : String) : Option ℚ :=
  let cs := s.data
  let sign : ℚ := match cs with | '-' :: _ => -1 | _ => 1
  let t := match cs with | '-' :: r => r | _ => cs
  match splitDots t with
  | [ip] =>
    if ip ≠ [] ∧ ip.all (·.isDigit) then
      some (sign * (natOfDigits ip : ℚ))
    else none
  | [ip, fp] =>
    if (ip ≠ [] ∨ fp ≠ []) ∧ ip.all (·.isDigit) ∧ fp.all (·.isDigit) then
      some (sign * ((natOfDigits ip : ℚ) +
        (natOfDigits fp : ℚ) / (10 : ℚ) ^ fp.length))
    else none
  | _ => none

/-- Python `str(x)` for a float, idealised: integral values print as
`n.0` (as in Python); other rationals use the `ℚ` printer, which no
theorem below ever inspects. -/
def pyFloatRepr (q : ℚ) : String :=
  if q.den = 1 then toString q.num ++ ".0" else toString q

namespace Opt

/-- `IRInstruction` (ir_generator.py lines 5-9): `op`, `args: List[str]`,
`result: Optional[str]`. -/
structure IRInstruction where
  op : String
  args : List String
  result : Option String
deriving Repr, DecidableEq

/-- `BasicBlock` (optimization.py lines 225-231).  The predecessor and
successor id sets are modelled as duplicate-free lists; only membership
is ever consumed. -/
structure BasicBlock where
  instructions : List IRInstruction
  predecessors : List Nat
  successors : List Nat
  id : Nat
deriving Repr, DecidableEq

/-- Python truthiness of `instr.result` (`None` and `''` are falsy). -/
def truthyRes : Option String → Bool
  | some s => !s.isEmpty
  | none => false

/-- Python `arg.startswith('L')`: the first character is `'L'`. -/
def startsWithL (s : String) : Bool :=
  match s.data with
  | [] => false
  | c :: _ => c == 'L'

/-- Python `d[k] = v` on an insertion-ordered dict. -/
def dictSet {α β : Type} [BEq α] (m : List (α × β)) (k : α) (v : β) :
    List (α × β) :=
  if m.any (fun p => p.1 == k) then
    m.map (fun p => if p.1 == k then (k, v) else p)
  else m ++ [(k, v)]

/-- The terminator opcodes of `_build_cfg` (line 269). -/
def isTerminator (op : String) : Bool :=
  op == "jump" || op == "branch_false" || op == "return" || op == "return_void"

/-- Membership in the leader set of `_build_cfg` (lines 263-270):
position 0, every `label`, every position after a terminator. -/
def isLeader (instructions : List IRInstruction) (i : Nat) : Bool :=
  i == 0 ||
  (match instructions.get? i with
   | some instr => instr.op == "label"
   | none => false) ||
  (match i with
   | 0 => false
   | j + 1 =>
     match instructions.get? j with
     | some instr => isTerminator instr.op
     | none => false)

/-- The block-splitting loop of `_build_cfg` (lines 272-282): flush the
current block at each leader position. -/
def splitGo (instructions : List IRInstruction) :
    List IRInstruction → Nat → List IRInstruction → List (List IRInstruction)
  | [], _, cur => if cur.isEmpty then [] else [cur]
  | x :: xs, i, cur =>
    if isLeader instructions i ∧ ¬cur.isEmpty then
      cur :: splitGo instructions xs (i + 1) [x]
    else
      splitGo instructions xs (i + 1) (cur ++ [x])

def listInsert (l : List Nat) (x : Nat) : List Nat :=
  if x ∈ l then l else l ++ [x]

/-- `block.successors.add(j)` on block `i` plus
`blocks[j].predecessors.add(i)`. -/
def addEdge (blocks : List BasicBlock) (i j : Nat) : List BasicBlock :=
  blocks.mapIdx (fun k b =>
    let b1 := if k = i then { b with successors := listInsert b.successors j }
              else b
    if k = j then { b1 with predecessors := listInsert b1.predecessors i }
    else b1)

/-- `_find_label_block` (lines 428-433).  `block.instructions[0].args[0]`
raises `IndexError` on a `label` instruction with no arguments; the
exception propagates to `optimize`'s `try`/`except`. -/
def findLabelBlockGo (label : String) :
    List BasicBlock → Nat → Except Unit (Option Nat)
  | [], _ => .ok none
  | b :: rest, i =>
    match b.instructions with
    | [] => findLabelBlockGo label rest (i + 1)
    | instr :: _ =>
      if instr.op == "label" then
        match instr.args with
        | [] => .error ()
        | a :: _ =>
          if a == label then .ok (some i) else findLabelBlockGo label rest (i + 1)
      else findLabelBlockGo label rest (i + 1)

def findLabelBlock (blocks : List BasicBlock) (label : String) :
    Except Unit (Option Nat) :=
  findLabelBlockGo label blocks 0

/-- The edge-adding loop of `_build_cfg` (lines 284-311).  Only the
`predecessors`/`successors` fields are updated, so reading each block's
last instruction from the accumulator is equivalent to reading it from
the original list. -/
def addCfgEdges (blocks : List BasicBlock) : Except Unit (List BasicBlock) :=
  (List.range blocks.length).foldlM (fun bs i => do
    match bs.get? i with
    | none => pure bs
    | some block =>
      match block.instructions.getLast? with
      | none => Except.error ()  -- blocks are nonempty by construction
      | some last =>
        if last.op == "jump" then
          match last.args with
          | [] => Except.error ()  -- last.args[0]: IndexError
          | a :: _ => do
            let target ← findLabelBlock bs a
            match target with
            | some t => pure (addEdge bs i t)
            | none => pure bs
        else if last.op == "branch_false" then do
          let bs1 := if i + 1 < bs.length then addEdge bs i (i + 1) else bs
          match last.args with
          | _ :: b :: _ => do
            let target ← findLabelBlock bs1 b
            match target with
            | some t => pure (addEdge bs1 i t)
            | none => pure bs1
          | _ => Except.error ()  -- last.args[1]: IndexError
        else if last.op == "return" || last.op == "return_void" then
          pure bs
        else
          pure (if i + 1 < bs.length then addEdge bs i (i + 1) else bs)) blocks

/-- `IROptimizer._build_cfg` (lines 259-312). -/
def buildCfg (instructions : List IRInstruction) :
    Except Unit (List BasicBlock) :=
  addCfgEdges ((splitGo instructions instructions 0 []).enum.map
    (fun p => ⟨p.2, [], [], p.1⟩))

/-! ### Constant folding (`_constant_folding`, lines 314-359) -/

def arithOps : List String := ["add", "sub", "mul", "div"]

def foldBinop (op : String) (l r : ℚ) : ℚ :=
  if op == "add" then l + r
  else if op == "sub" then l - r
  else if op == "mul" then l * r
  else l / r

/-- The per-block loop of `_constant_folding`, threading the
`values : temp → constant` dict.  Errors model the uncaught exceptions of
the source: `IndexError` on a missing argument and `ValueError` from
`float(...)` (the `try` in the source only wraps the arithmetic, where
the explicit `right == 0` test already precludes `ZeroDivisionError`). -/
def foldBlockGo : List (String × ℚ) → List IRInstruction →
    Except Unit (List IRInstruction × Bool)
  | values, instr :: rest =>
    if instr.op == "load_const" && truthyRes instr.result then
      match instr.args with
      | [] => .error ()
      | a :: _ =>
        match pyFloat a with
        | none => .error ()
        | some v => do
          let (rest', ch) ← foldBlockGo (dictSet values (instr.result.getD "") v) rest
          pure (instr :: rest', ch)
    else if arithOps.contains instr.op && truthyRes instr.result then
      match instr.args with
      | a :: b :: _ =>
        match values.lookup a, values.lookup b with
        | some l, some r =>
          if instr.op == "div" && r == 0 then do
            let (rest', ch) ← foldBlockGo values rest
            pure (instr :: rest', ch)
          else do
            let v := foldBinop instr.op l r
            let (rest', _) ← foldBlockGo (dictSet values (instr.result.getD "") v) rest
            pure (IRInstruction.mk "load_const" [pyFloatRepr v] instr.result :: rest', true)
        | _, _ => do
          let (rest', ch) ← foldBlockGo values rest
          pure (instr :: rest', ch)
      | _ => .error ()
    else do
      let (rest', ch) ← foldBlockGo values rest
      pure (instr :: rest', ch)
  | _, [] => .ok ([], false)

/-- `IROptimizer._constant_folding`: every block starts with an empty
`values` dict; the changed flags are or-ed across blocks. -/
def constantFolding : List BasicBlock → Except Unit (List BasicBlock × Bool)
  | [] => .ok ([], false)
  | b :: rest => do
    let (instrs', ch) ← foldBlockGo [] b.instructions
    let (rest', ch') ← constantFolding rest
    pure ({ b with instructions := instrs' } :: rest', ch || ch')

/-! ### Dead-code elimination (`_dead_code_elimination`, lines 361-391) -/

/-- The opcodes line 374 treats as always live. -/
def dceKeepOps : List String :=
  ["store", "call", "return", "return_void", "branch_false", "jump"]

/-- The backward scan of one block: returns the accumulated used-variable
set, the surviving instructions in order, and the changed flag.  Result
names are looked up in the set accumulated from *later* instructions;
kept instructions add their non-`L`-prefixed arguments (the set is a list
of which only membership is consumed; `args` are strings by
`IRInstruction`'s declared type, so the source's `isinstance` guard is
always true here). -/
def dceBlockGo : List IRInstruction → List String × List IRInstruction × Bool
  | [] => ([], [], false)
  | instr :: rest =>
    let (used, kept, ch) := dceBlockGo rest
    let keep := dceKeepOps.contains instr.op ||
      (truthyRes instr.result && used.contains (instr.result.getD ""))
    if keep then
      (used ++ instr.args.filter (fun a => !startsWithL a), instr :: kept, ch)
    else (used, kept, true)

/-- `IROptimizer._dead_code_elimination`. -/
def deadCodeElimination : List BasicBlock → List BasicBlock × Bool
  | [] => ([], false)
  | b :: rest =>
    let (_, kept, ch) := dceBlockGo b.instructions
    let (rest', ch') := deadCodeElimination rest
    ({ b with instructions := kept } :: rest', ch || ch')

/-! ### Common-subexpression elimination
(`_common_subexpression_elimination`, lines 393-417) -/

/-- The opcodes line 405 treats as pure. -/
def pureOps : List String :=
  ["add", "sub", "mul", "div", "and", "or", "not", "neg"]

/-- The per-block loop, threading the `(op, args) → result` dict.  The
stored result may be Python `None`; a hit then builds
`IRInstruction('load', [None], ...)`, encoded here as the inert arg `""`
(no later check distinguishes the two: the empty string is never a truthy
result and is filtered into the used set harmlessly). -/
def cseBlockGo : List ((String × List String) × Option String) →
    List IRInstruction → List IRInstruction × Bool
  | exprs, instr :: rest =>
    if pureOps.contains instr.op then
      match exprs.lookup (instr.op, instr.args) with
      | some prev =>
        let (rest', _) := cseBlockGo exprs rest
        (IRInstruction.mk "load" [prev.getD ""] instr.result :: rest', true)
      | none =>
        let (rest', ch) :=
          cseBlockGo (exprs ++ [((instr.op, instr.args), instr.result)]) rest
        (instr :: rest', ch)
    else
      let (rest', ch) := cseBlockGo exprs rest
      (instr :: rest', ch)
  | _, [] => ([], false)

/-- `IROptimizer._common_subexpression_elimination`: a fresh `expressions`
dict per block. -/
def commonSubexpressionElimination : List BasicBlock → List BasicBlock × Bool
  | [] => ([], false)
  | b :: rest =>
    let (instrs', ch) := cseBlockGo [] b.instructions
    let (rest', ch') := commonSubexpressionElimination rest
    ({ b with instructions := instrs' } :: rest', ch || ch')

/-! ### The fixed-point driver (`IROptimizer.optimize`, lines 238-257) -/

/-- `IROptimizer._flatten_cfg` (lines 419-426). -/
def flattenCfg (blocks : List BasicBlock) : List IRInstruction :=
  blocks.flatMap (fun b => b.instructions)

/-- One iteration of the `while changed` loop: the three passes in
source order, each on the previous pass's output. -/
def optStep (blocks : List BasicBlock) : Except Unit (List BasicBlock × Bool) := do
  let (bs1, c1) ← constantFolding blocks
  let (bs2, c2) := deadCodeElimination bs1
  let (bs3, c3) := commonSubexpressionElimination bs2
  pure (bs3, c1 || c2 || c3)

/-- The `while changed` loop with explicit fuel.  Every changing
iteration removes an instruction or replaces a pure opcode by
`load_const`/`load`, so `blockMeasure + 1` fuel always reaches the fixed
point; exhaustion is mapped to the error case, where `optimize` (like the
source's `try`/`except`) falls back to the input. -/
def optLoop : Nat → List BasicBlock → Except Unit (List BasicBlock)
  | 0, _ => .error ()
  | fuel + 1, blocks => do
    let (bs', ch) ← optStep blocks
    if ch then optLoop fuel bs' else pure bs'

/-- Instruction count plus pure-opcode count: a strict upper bound on the
number of changing iterations of the fixed-point loop. -/
def blockMeasure (blocks : List BasicBlock) : Nat :=
  (blocks.map (fun b => b.instructions.length)).sum +
  (blocks.map
    (fun b => (b.instructions.filter (fun i => pureOps.contains i.op)).length)).sum

/-- `IROptimizer.optimize` (lines 238-257): build the CFG, iterate the
three passes to a fixed point, flatten; any exception returns the input
list unchanged. -/
def optimize (instructions : List IRInstruction) : List IRInstruction :=
  match (do
    let bs ← buildCfg instructions
    let bs' ← optLoop (blockMeasure bs + 1) bs
    pure (flattenCfg bs') : Except Unit (List IRInstruction)) with
  | .ok r => r
  | .error _ => instructions

/-! ### Helper lemmas about the optimizer, used for claim C4's amended
idempotence statement.  "Straight-line" code contains neither `label`
instructions nor terminators, i.e. it forms a single basic block. -/

/-- The opcodes that influence basic-block structure: `label` plus the
four terminators of `_build_cfg`. -/
def structuralOps : List String :=
  ["label", "jump", "branch_false", "return", "return_void"]

/-- Straight-line code: no instruction is a `label` or a terminator. -/
def straightLine (l : List IRInstruction) : Bool :=
  l.all (fun i => !structuralOps.contains i.op)

theorem straightLine_mem {l : List IRInstruction} (h : straightLine l = true)
    {i : IRInstruction} (hi : i ∈ l) : i.op ∉ structuralOps := by
  have := List.all_eq_true.mp h i hi
  simpa [List.elem_iff] using this

theorem straightLine_cons {i : IRInstruction} {l : List IRInstruction} :
    straightLine (i :: l) = ((!structuralOps.contains i.op) && straightLine l) := by
  simp [straightLine]

theorem ne_of_not_structural {i : IRInstruction} (h : i.op ∉ structuralOps) :
    i.op ≠ "label" ∧ i.op ≠ "jump" ∧ i.op ≠ "branch_false" ∧
      i.op ≠ "return" ∧ i.op ≠ "return_void" := by
  refine ⟨?_, ?_, ?_, ?_, ?_⟩ <;> intro he <;> rw [he] at h <;>
    simp [structuralOps] at h

theorem isLeader_pos_eq_false {l : List IRInstruction}
    (h : straightLine l = true) {j : Nat} (hj : 1 ≤ j) :
    isLeader l j = false := by
  obtain ⟨k, rfl⟩ : ∃ k, j = k + 1 := ⟨j - 1, by omega⟩
  unfold isLeader
  have h1 : (match l.get? (k + 1) with
      | some instr => instr.op == "label"
      | none => false) = false := by
    cases hget : l.get? (k + 1) with
    | none => rfl
    | some instr =>
      have hm := straightLine_mem h (List.get?_mem hget)
      simp only [beq_eq_false_iff_ne]
      exact (ne_of_not_structural hm).1
  have h2 : (match l.get? k with
      | some instr => isTerminator instr.op
      | none => false) = false := by
    cases hget : l.get? k with
    | none => rfl
    | some instr =>
      have hm := straightLine_mem h (List.get?_mem hget)
      obtain ⟨-, hj', hb, hr, hrv⟩ := ne_of_not_structural hm
      simp [isTerminator, hj', hb, hr, hrv]
  simp only [h1, h2, Bool.or_false, Bool.false_or]
  rfl

theorem addCfgEdges_singleton_plain {b : BasicBlock} {last : IRInstruction}
    (hlast : b.instructions.getLast? = some last)
    (h2 : last.op ≠ "jump") (h3 : last.op ≠ "branch_false")
    (h4 : last.op ≠ "return") (h5 : last.op ≠ "return_void") :
    addCfgEdges [b] = .ok [b] := by
  unfold addCfgEdges
  have hr1 : List.range 1 = [0] := rfl
  simp only [List.length_singleton, hr1, List.foldlM, List.get?]
  simp [hlast, beq_eq_false_iff_ne, h2, h3, h4, h5]
  rfl

theorem splitGo_no_leaders (l : List IRInstruction) (xs : List IRInstruction) :
    ∀ (i : Nat) (cur : List IRInstruction), cur ≠ [] →
      (∀ j, i ≤ j → isLeader l j = false) →
      splitGo l xs i cur = [cur ++ xs] := by
  induction xs with
  | nil =>
    intro i cur hc _
    simp [splitGo, hc]
  | cons x xs ih =>
    intro i cur hc hl
    have hli : isLeader l i = false := hl i (Nat.le_refl i)
    unfold splitGo
    rw [if_neg (by simp [hli])]
    rw [ih (i + 1) (cur ++ [x]) (by simp) (fun j hj => hl j (by omega))]
    simp

theorem buildCfg_straight {l : List IRInstruction}
    (h : straightLine l = true) (hne : l ≠ []) :
    buildCfg l = .ok [⟨l, [], [], 0⟩] := by
  obtain ⟨x, xs, rfl⟩ : ∃ x xs, l = x :: xs := by
    cases l with
    | nil => exact absurd rfl hne
    | cons x xs => exact ⟨x, xs, rfl⟩
  have hsplit : splitGo (x :: xs) (x :: xs) 0 [] = [x :: xs] := by
    unfold splitGo
    rw [if_neg (by simp)]
    simpa using splitGo_no_leaders (x :: xs) xs 1 [x] (by simp)
      (fun j hj => isLeader_pos_eq_false h hj)
  unfold buildCfg
  rw [hsplit]
  have hlast : (x :: xs).getLast? = some ((x :: xs).getLast (by simp)) :=
    List.getLast?_eq_getLast _ _
  have hmem : (x :: xs).getLast (by simp) ∈ x :: xs := List.getLast_mem _
  obtain ⟨hl1, hl2, hl3, hl4, hl5⟩ :=
    ne_of_not_structural (straightLine_mem h hmem)
  show addCfgEdges [⟨x :: xs, [], [], 0⟩] = _
  exact addCfgEdges_singleton_plain hlast hl2 hl3 hl4 hl5


theorem mapCons_eq {e : Except Unit (List IRInstruction × Bool)}
    {j : IRInstruction} {out : List IRInstruction} {ch : Bool}
    (h : (fun p : List IRInstruction × Bool => (j :: p.1, p.2)) <$> e =
      .ok (out, ch)) :
    ∃ r, e = .ok (r, ch) ∧ out = j :: r := by
  cases e with
  | error u => simp [Functor.map, Except.map] at h
  | ok p =>
    obtain ⟨r, c⟩ := p
    simp only [Functor.map, Except.map, Except.ok.injEq, Prod.mk.injEq] at h
    exact ⟨r, by rw [h.2], h.1.symm⟩

theorem mapConsTrue_eq {e : Except Unit (List IRInstruction × Bool)}
    {j : IRInstruction} {out : List IRInstruction} {ch : Bool}
    (h : (fun p : List IRInstruction × Bool => (j :: p.1, true)) <$> e =
      .ok (out, ch)) :
    ∃ r c, e = .ok (r, c) ∧ out = j :: r ∧ ch = true := by
  cases e with
  | error u => simp [Functor.map, Except.map] at h
  | ok p =>
    obtain ⟨r, c⟩ := p
    simp only [Functor.map, Except.map, Except.ok.injEq, Prod.mk.injEq] at h
    exact ⟨r, c, rfl, h.1.symm, h.2.symm⟩

theorem foldBlockGo_ok_false {values : List (String × ℚ)}
    {l out : List IRInstruction}
    (h : foldBlockGo values l = .ok (out, false)) : out = l := by
  induction l generalizing values out with
  | nil =>
    simp only [foldBlockGo, Except.ok.injEq, Prod.mk.injEq] at h
    exact h.1.symm
  | cons instr rest ih =>
    simp only [foldBlockGo] at h
    repeat' split at h
    all_goals try simp only [bind_pure_comp] at h
    all_goals
      first
      | exact absurd h (by simp)
      | (obtain ⟨r, hrec, rfl⟩ := mapCons_eq h
         rw [ih hrec])
      | (obtain ⟨r, c, hrec, rfl, hc⟩ := mapConsTrue_eq h
         exact absurd hc (by simp))

theorem foldBlockGo_ops {values : List (String × ℚ)}
    {l out : List IRInstruction} {ch : Bool}
    (h : foldBlockGo values l = .ok (out, ch)) :
    ∀ i ∈ out, i ∈ l ∨ i.op = "load_const" := by
  induction l generalizing values out ch with
  | nil =>
    simp only [foldBlockGo, Except.ok.injEq, Prod.mk.injEq] at h
    rw [← h.1]
    intro i hi
    exact absurd hi (by simp)
  | cons instr rest ih =>
    simp only [foldBlockGo] at h
    repeat' split at h
    all_goals try simp only [bind_pure_comp] at h
    all_goals
      first
      | exact absurd h (by simp)
      | (obtain ⟨r, hrec, rfl⟩ := mapCons_eq h
         intro i hi
         rcases List.mem_cons.mp hi with rfl | hi
         · exact Or.inl (List.mem_cons_self _ _)
         · rcases ih hrec i hi with hm | hop
           · exact Or.inl (List.mem_cons_of_mem _ hm)
           · exact Or.inr hop)
      | (obtain ⟨r, c, hrec, rfl, hc⟩ := mapConsTrue_eq h
         intro i hi
         rcases List.mem_cons.mp hi with rfl | hi
         · exact Or.inr rfl
         · rcases ih hrec i hi with hm | hop
           · exact Or.inl (List.mem_cons_of_mem _ hm)
           · exact Or.inr hop)

theorem dceBlockGo_mem {l : List IRInstruction}
    {used : List String} {kept : List IRInstruction} {ch : Bool}
    (h : dceBlockGo l = (used, kept, ch)) : ∀ i ∈ kept, i ∈ l := by
  induction l generalizing used kept ch with
  | nil =>
    simp only [dceBlockGo, Prod.mk.injEq] at h
    rw [← h.2.1]
    intro i hi
    exact absurd hi (by simp)
  | cons instr rest ih =>
    simp only [dceBlockGo] at h
    rcases hrec : dceBlockGo rest with ⟨u, k, c⟩
    rw [hrec] at h
    simp only at h
    split at h
    all_goals
      simp only [Prod.mk.injEq] at h
      obtain ⟨-, h2, -⟩ := h
      rw [← h2]
    · intro i hi
      rcases List.mem_cons.mp hi with rfl | hi
      · exact List.mem_cons_self _ _
      · exact List.mem_cons_of_mem _ (ih hrec i hi)
    · intro i hi
      exact List.mem_cons_of_mem _ (ih hrec i hi)

theorem dceBlockGo_false {l : List IRInstruction}
    {used : List String} {kept : List IRInstruction}
    (h : dceBlockGo l = (used, kept, false)) : kept = l := by
  induction l generalizing used kept with
  | nil =>
    simp only [dceBlockGo, Prod.mk.injEq] at h
    exact h.2.1.symm
  | cons instr rest ih =>
    simp only [dceBlockGo] at h
    rcases hrec : dceBlockGo rest with ⟨u, k, c⟩
    rw [hrec] at h
    simp only at h
    split at h
    all_goals simp only [Prod.mk.injEq] at h
    · obtain ⟨-, h2, h3⟩ := h
      subst h3
      rw [← h2, ih hrec]
    · exact absurd h.2.2 (by simp)

theorem cseBlockGo_ops {exprs : List ((String × List String) × Option String)}
    {l out : List IRInstruction} {ch : Bool}
    (h : cseBlockGo exprs l = (out, ch)) :
    ∀ i ∈ out, i ∈ l ∨ i.op = "load" := by
  induction l generalizing exprs out ch with
  | nil =>
    simp only [cseBlockGo, Prod.mk.injEq] at h
    rw [← h.1]
    intro i hi
    exact absurd hi (by simp)
  | cons instr rest ih =>
    simp only [cseBlockGo] at h
    split at h
    · split at h
      · rcases hrec : cseBlockGo exprs rest with ⟨r, c⟩
        rw [hrec] at h
        simp only [Prod.mk.injEq] at h
        rw [← h.1]
        intro i hi
        rcases List.mem_cons.mp hi with rfl | hi
        · exact Or.inr rfl
        · rcases ih hrec i hi with hm | hop
          · exact Or.inl (List.mem_cons_of_mem _ hm)
          · exact Or.inr hop
      · rcases hrec : cseBlockGo (exprs ++ [((instr.op, instr.args), instr.result)]) rest
          with ⟨r, c⟩
        rw [hrec] at h
        simp only [Prod.mk.injEq] at h
        rw [← h.1]
        intro i hi
        rcases List.mem_cons.mp hi with rfl | hi
        · exact Or.inl (List.mem_cons_self _ _)
        · rcases ih hrec i hi with hm | hop
          · exact Or.inl (List.mem_cons_of_mem _ hm)
          · exact Or.inr hop
    · rcases hrec : cseBlockGo exprs rest with ⟨r, c⟩
      rw [hrec] at h
      simp only [Prod.mk.injEq] at h
      rw [← h.1]
      intro i hi
      rcases List.mem_cons.mp hi with rfl | hi
      · exact Or.inl (List.mem_cons_self _ _)
      · rcases ih hrec i hi with hm | hop
        · exact Or.inl (List.mem_cons_of_mem _ hm)
        · exact Or.inr hop

theorem cseBlockGo_false {exprs : List ((String × List String) × Option String)}
    {l out : List IRInstruction}
    (h : cseBlockGo exprs l = (out, false)) : out = l := by
  induction l generalizing exprs out with
  | nil =>
    simp only [cseBlockGo, Prod.mk.injEq] at h
    exact h.1.symm
  | cons instr rest ih =>
    simp only [cseBlockGo] at h
    split at h
    · split at h
      · rcases hrec : cseBlockGo exprs rest with ⟨r, c⟩
        rw [hrec] at h
        simp only [Prod.mk.injEq] at h
        exact absurd h.2 (by simp)
      · rcases hrec : cseBlockGo (exprs ++ [((instr.op, instr.args), instr.result)]) rest
          with ⟨r, c⟩
        rw [hrec] at h
        simp only [Prod.mk.injEq] at h
        obtain ⟨h1, h2⟩ := h
        subst h2
        rw [← h1, ih hrec]
    · rcases hrec : cseBlockGo exprs rest with ⟨r, c⟩
      rw [hrec] at h
      simp only [Prod.mk.injEq] at h
      obtain ⟨h1, h2⟩ := h
      subst h2
      rw [← h1, ih hrec]

theorem straightLine_of_ops {l out : List IRInstruction}
    (hl : straightLine l = true)
    (h : ∀ i ∈ out, i ∈ l ∨ i.op = "load_const" ∨ i.op = "load") :
    straightLine out = true := by
  rw [straightLine, List.all_eq_true]
  intro i hi
  rcases h i hi with hm | hop | hop
  · have := straightLine_mem hl hm
    simp [List.elem_iff, this]
  · rw [hop]
    decide
  · rw [hop]
    decide

theorem constantFolding_ok_false {bs bs' : List BasicBlock}
    (h : constantFolding bs = .ok (bs', false)) : bs' = bs := by
  induction bs generalizing bs' with
  | nil =>
    simp only [constantFolding, Except.ok.injEq, Prod.mk.injEq] at h
    exact h.1.symm
  | cons b rest ih =>
    simp only [constantFolding] at h
    cases hfold : foldBlockGo [] b.instructions with
    | error u => rw [hfold] at h; exact absurd h (by simp [Bind.bind, Except.bind])
    | ok p =>
      obtain ⟨i1, c1⟩ := p
      rw [hfold] at h
      cases hrest : constantFolding rest with
      | error u =>
        rw [hrest] at h
        exact absurd h (by simp [Bind.bind, Except.bind])
      | ok q =>
        obtain ⟨r1, c2⟩ := q
        rw [hrest] at h
        simp only [Bind.bind, Except.bind, pure, Except.pure, Except.ok.injEq,
          Prod.mk.injEq, Bool.or_eq_false_iff] at h
        obtain ⟨h1, hc1, hc2⟩ := h
        subst hc1
        subst hc2
        rw [← h1, foldBlockGo_ok_false hfold, ih hrest]

theorem deadCodeElimination_false {bs bs' : List BasicBlock}
    (h : deadCodeElimination bs = (bs', false)) : bs' = bs := by
  induction bs generalizing bs' with
  | nil =>
    simp only [deadCodeElimination, Prod.mk.injEq] at h
    exact h.1.symm
  | cons b rest ih =>
    simp only [deadCodeElimination] at h
    rcases hdce : dceBlockGo b.instructions with ⟨u, k, c⟩
    rcases hrest : deadCodeElimination rest with ⟨r1, c2⟩
    rw [hdce, hrest] at h
    simp only [Prod.mk.injEq, Bool.or_eq_false_iff] at h
    obtain ⟨h1, hc1, hc2⟩ := h
    subst hc1
    subst hc2
    rw [← h1, dceBlockGo_false hdce, ih hrest]

theorem commonSubexpressionElimination_false {bs bs' : List BasicBlock}
    (h : commonSubexpressionElimination bs = (bs', false)) : bs' = bs := by
  induction bs generalizing bs' with
  | nil =>
    simp only [commonSubexpressionElimination, Prod.mk.injEq] at h
    exact h.1.symm
  | cons b rest ih =>
    simp only [commonSubexpressionElimination] at h
    rcases hcse : cseBlockGo [] b.instructions with ⟨i1, c⟩
    rcases hrest : commonSubexpressionElimination rest with ⟨r1, c2⟩
    rw [hcse, hrest] at h
    simp only [Prod.mk.injEq, Bool.or_eq_false_iff] at h
    obtain ⟨h1, hc1, hc2⟩ := h
    subst hc1
    subst hc2
    rw [← h1, cseBlockGo_false hcse, ih hrest]

theorem optStep_false {bs bs' : List BasicBlock}
    (h : optStep bs = .ok (bs', false)) : bs' = bs := by
  simp only [optStep] at h
  cases hfold : constantFolding bs with
  | error u => rw [hfold] at h; exact absurd h (by simp [Bind.bind, Except.bind])
  | ok p =>
    obtain ⟨bs1, c1⟩ := p
    rw [hfold] at h
    simp only [Bind.bind, Except.bind, pure, Except.pure, Except.ok.injEq,
      Prod.mk.injEq] at h
    rcases hdce : deadCodeElimination bs1 with ⟨bs2, c2⟩
    rw [hdce] at h
    simp only at h
    rcases hcse : commonSubexpressionElimination bs2 with ⟨bs3, c3⟩
    rw [hcse] at h
    simp only [Bool.or_eq_false_iff] at h
    obtain ⟨h1, ⟨hc1, hc2⟩, hc3⟩ := h
    subst hc1; subst hc2; subst hc3
    rw [← h1, commonSubexpressionElimination_false hcse,
      deadCodeElimination_false hdce, constantFolding_ok_false hfold]

theorem optLoop_fix {fuel : Nat} {bs out : List BasicBlock}
    (h : optLoop fuel bs = .ok out) : optStep out = .ok (out, false) := by
  induction fuel generalizing bs with
  | zero => exact absurd h (by simp [optLoop])
  | succ n ih =>
    rw [optLoop] at h
    cases hst : optStep bs with
    | error u => rw [hst] at h; exact absurd h (by simp [Bind.bind, Except.bind])
    | ok p =>
      obtain ⟨bs', c⟩ := p
      rw [hst] at h
      simp only [Bind.bind, Except.bind] at h
      cases c with
      | true => exact ih h
      | false =>
        simp only [if_neg (by simp : ¬(false = true)), pure, Except.pure,
          Except.ok.injEq] at h
        subst h
        have hbs := optStep_false hst
        rw [hbs] at hst
        rw [hbs]
        exact hst

theorem constantFolding_singleton {b : BasicBlock} {out : List BasicBlock}
    {ch : Bool} (h : constantFolding [b] = .ok (out, ch)) :
    ∃ instrs, foldBlockGo [] b.instructions = .ok (instrs, ch) ∧
      out = [{ b with instructions := instrs }] := by
  simp only [constantFolding] at h
  cases hfold : foldBlockGo [] b.instructions with
  | error u => rw [hfold] at h; exact absurd h (by simp [Bind.bind, Except.bind])
  | ok p =>
    obtain ⟨i1, c1⟩ := p
    rw [hfold] at h
    simp only [Bind.bind, Except.bind, pure, Except.pure, Except.ok.injEq,
      Prod.mk.injEq, Bool.or_false] at h
    exact ⟨i1, by rw [h.2], h.1.symm⟩

theorem deadCodeElimination_singleton {b : BasicBlock} :
    deadCodeElimination [b] =
      ([{ b with instructions := (dceBlockGo b.instructions).2.1 }],
        (dceBlockGo b.instructions).2.2) := by
  simp only [deadCodeElimination]
  rcases h : dceBlockGo b.instructions with ⟨u, k, c⟩
  simp [h]

theorem commonSubexpressionElimination_singleton {b : BasicBlock} :
    commonSubexpressionElimination [b] =
      ([{ b with instructions := (cseBlockGo [] b.instructions).1 }],
        (cseBlockGo [] b.instructions).2) := by
  simp only [commonSubexpressionElimination]
  rcases h : cseBlockGo [] b.instructions with ⟨k, c⟩
  simp [h]

theorem optStep_singleton {b : BasicBlock} {out : List BasicBlock} {ch : Bool}
    (hs : straightLine b.instructions = true)
    (h : optStep [b] = .ok (out, ch)) :
    ∃ instrs, out = [{ b with instructions := instrs }] ∧
      straightLine instrs = true := by
  simp only [optStep] at h
  cases hfold : constantFolding [b] with
  | error u => rw [hfold] at h; exact absurd h (by simp [Bind.bind, Except.bind])
  | ok p =>
    obtain ⟨bs1, c1⟩ := p
    obtain ⟨i1, hf, rfl⟩ := constantFolding_singleton hfold
    rw [hfold] at h
    simp only [Bind.bind, Except.bind, pure, Except.pure] at h
    rw [deadCodeElimination_singleton] at h
    simp only at h
    rw [commonSubexpressionElimination_singleton] at h
    simp only [Except.ok.injEq, Prod.mk.injEq] at h
    have s1 : straightLine i1 = true :=
      straightLine_of_ops hs (fun i hi =>
        match foldBlockGo_ops hf i hi with
        | .inl m => .inl m
        | .inr e => .inr (.inl e))
    have s2 : straightLine (dceBlockGo i1).2.1 = true :=
      straightLine_of_ops s1 (fun i hi =>
        .inl (@dceBlockGo_mem i1 _ _ _ rfl i hi))
    have s3 : straightLine (cseBlockGo [] (dceBlockGo i1).2.1).1 = true :=
      straightLine_of_ops s2 (fun i hi =>
        match @cseBlockGo_ops [] (dceBlockGo i1).2.1 _ _ rfl i hi with
        | .inl m => .inl m
        | .inr e => .inr (.inr e))
    exact ⟨(cseBlockGo [] (dceBlockGo i1).2.1).1, h.1.symm, s3⟩

theorem optLoop_singleton {fuel : Nat} {b : BasicBlock} {out : List BasicBlock}
    (hs : straightLine b.instructions = true)
    (h : optLoop fuel [b] = .ok out) :
    ∃ instrs, out = [{ b with instructions := instrs }] ∧
      straightLine instrs = true := by
  induction fuel generalizing b with
  | zero => exact absurd h (by simp [optLoop])
  | succ n ih =>
    rw [optLoop] at h
    cases hst : optStep [b] with
    | error u => rw [hst] at h; exact absurd h (by simp [Bind.bind, Except.bind])
    | ok p =>
      obtain ⟨bs', c⟩ := p
      obtain ⟨i1, rfl, hstraight⟩ := optStep_singleton hs hst
      rw [hst] at h
      simp only [Bind.bind, Except.bind] at h
      cases c with
      | true =>
        obtain ⟨i2, ho, hs2⟩ := ih hstraight h
        exact ⟨i2, ho, hs2⟩
      | false =>
        simp only [if_neg (by simp : ¬(false = true)), pure, Except.pure,
          Except.ok.injEq] at h
        exact ⟨i1, h.symm, hstraight⟩
end Opt

/-! ## x64 assembler (backend/x64_assembler.py, class `X64Assembler`) -/

namespace X64

/-- Python `str.upper()` on ASCII names. -/
def upperChar (c : Char) : Char :=
  if 'a' ≤ c ∧ c ≤ 'z' then Char.ofNat (c.toNat - 32) else c

def pyUpper (s : String) : String := String.mk (s.data.map upperChar)

/-- The `Register` enum (lines 6-23): name → encoding value. -/
def regTable : List (String × Nat) :=
  [("RAX", 0), ("RCX", 1), ("RDX", 2), ("RBX", 3), ("RSP", 4), ("RBP", 5),
   ("RSI", 6), ("RDI", 7), ("R8", 8), ("R9", 9), ("R10", 10), ("R11", 11),
   ("R12", 12), ("R13", 13), ("R14", 14), ("R15", 15)]

/-- `Register[op.upper()]`, `none` standing for the `KeyError` path. -/
def regIndex (s : String) : Option Nat := regTable.lookup (pyUpper s)

inductive OperandType where
  | register | memory | immediate | label
deriving Repr, DecidableEq

/-- The `Union[Register, int, str]` payload of `Operand.value`. -/
inductive OpValue where
  | reg (r : Nat)
  | int (n : Int)
  | str (s : String)
deriving Repr, DecidableEq

/-- `Operand` (lines 31-39). -/
structure Operand where
  type : OperandType
  value : OpValue
  size : Nat := 8
  base : Option Nat := none
  index : Option Nat := none
  scale : Nat := 1
  displacement : Int := 0
deriving Repr, DecidableEq

/-- What an instruction dict's `operands` list may hold: a register/label
name, an immediate, or an already-built `Operand`. -/
inductive RawOperand where
  | str (s : String)
  | int (n : Int)
  | opnd (o : Operand)
deriving Repr, DecidableEq

/-- An instruction dict: optional `label` key, `opcode`, `operands`,
optional `target` key. -/
structure XInstr where
  label : Option String := none
  opcode : String := ""
  operands : List RawOperand := []
  target : Option String := none
deriving Repr, DecidableEq

/-- `_parse_operand` (lines 366-378). -/
def parseOperand : RawOperand → Operand
  | .str s =>
    match regIndex s with
    | some r => { type := .register, value := .reg r }
    | none => { type := .label, value := .str s }
  | .int n => { type := .immediate, value := .int n }
  | .opnd o => o

/-- `_needs_rex` (lines 380-387). -/
def needsRex (op : Operand) : Bool :=
  match op.type with
  | .register =>
    match op.value with
    | .reg r => decide (r ≥ 8)
    | _ => false
  | .memory =>
    (match op.base with | some b => decide (b ≥ 8) | none => false) ||
    (match op.index with | some i => decide (i ≥ 8) | none => false)
  | _ => false

/-- `_needs_sib` (lines 389-393): memory with an index, or base `RSP`. -/
def needsSib (op : Operand) : Bool :=
  match op.type with
  | .memory => op.index.isSome || op.base == some 4
  | _ => false

/-- `_get_mov_size` (lines 97-134). -/
def getMovSize (operands : List RawOperand) : Nat :=
  match operands with
  | [o1, o2] =>
    let dst := parseOperand o1
    let src := parseOperand o2
    let rex := if needsRex dst || needsRex src then 1 else 0
    let sib := if needsSib dst || needsSib src then 1 else 0
    let disp := if dst.displacement ≠ 0 then dst.displacement else src.displacement
    let dispSize :=
      if dst.displacement ≠ 0 ∨ src.displacement ≠ 0 then
        if -128 ≤ disp ∧ disp ≤ 127 then 1 else 4
      else 0
    let immSize :=
      match src.type, src.value with
      | .immediate, .int v =>
        if -128 ≤ v ∧ v ≤ 127 then 1 else if dst.size = 4 then 4 else 8
      | _, _ => 0
    rex + 1 + 1 + sib + dispSize + immSize
  | _ => 0

/-- `_get_push_size` (lines 136-148). -/
def getPushSize (operands : List RawOperand) : Nat :=
  match operands with
  | [] => 0
  | o :: _ => 1 + (if needsRex (parseOperand o) then 1 else 0)

/-- `_get_pop_size` (lines 150-162). -/
def getPopSize (operands : List RawOperand) : Nat :=
  match operands with
  | [] => 0
  | o :: _ => 1 + (if needsRex (parseOperand o) then 1 else 0)

/-- `_get_call_size` (lines 164-174). -/
def getCallSize (instr : XInstr) : Nat :=
  if instr.target.isSome then 5
  else
    match instr.operands with
    | o :: _ =>
      match (parseOperand o).type with
      | .register => 2
      | _ => 6
    | [] => 0

/-- `_get_alu_size` (lines 176-202). -/
def getAluSize (operands : List RawOperand) : Nat :=
  match operands with
  | [o1, o2] =>
    let dst := parseOperand o1
    let src := parseOperand o2
    let rex := if needsRex dst || needsRex src then 1 else 0
    let immSize :=
      match src.type, src.value with
      | .immediate, .int v => if -128 ≤ v ∧ v ≤ 127 then 1 else 4
      | _, _ => 0
    rex + 1 + 1 + immSize
  | _ => 0

/-- `_get_lea_size` (lines 204-234). -/
def getLeaSize (operands : List RawOperand) : Nat :=
  match operands with
  | [o1, o2] =>
    let dst := parseOperand o1
    let src := parseOperand o2
    let rex := if needsRex dst || needsRex src then 1 else 0
    let sib := if needsSib src then 1 else 0
    let dispSize :=
      if src.displacement ≠ 0 then
        if -128 ≤ src.displacement ∧ src.displacement ≤ 127 then 1 else 4
      else 0
    rex + 1 + 1 + sib + dispSize
  | _ => 0

/-- `_get_instruction_size` (lines 75-95): pass 1's size for one
instruction; 0 for unknown opcodes. -/
def getInstructionSize (instr : XInstr) : Nat :=
  if instr.opcode == "mov" then getMovSize instr.operands
  else if instr.opcode == "push" then getPushSize instr.operands
  else if instr.opcode == "pop" then getPopSize instr.operands
  else if instr.opcode == "call" then getCallSize instr
  else if instr.opcode == "ret" then 1
  else if instr.opcode == "add" || instr.opcode == "sub" ||
      instr.opcode == "and" || instr.opcode == "or" ||
      instr.opcode == "xor" then getAluSize instr.operands
  else if instr.opcode == "lea" then getLeaSize instr.operands
  else 0

/-- `value & 0xFF` / `& 0xFFFF` / `& 0xFFFFFFFF` on a Python int. -/
def maskByte (v : Int) : Nat := (v.emod 256).toNat
def mask16 (v : Int) : Nat := (v.emod 65536).toNat
def mask32 (v : Int) : Nat := (v.emod 4294967296).toNat

/-- `_emit_immediate` (lines 395-404).  `struct.pack('<Q', value)` raises
on a value outside `[0, 2^64)`; the masked smaller sizes cannot raise;
any other size emits nothing. -/
def emitImmediate (value : Int) (size : Nat) : Except Unit (List Nat) :=
  if size = 1 then .ok [maskByte value]
  else if size = 2 then .ok (PEGen.le16 (mask16 value))
  else if size = 4 then .ok (PEGen.le32 (mask32 value))
  else if size = 8 then
    if 0 ≤ value ∧ value < 2 ^ 64 then .ok (PEGen.le64 value.toNat)
    else .error ()
  else .ok []

/-- `struct.pack('<i', v)`: little-endian two's complement, raising
outside the signed 32-bit range. -/
def packI32 (v : Int) : Except Unit (List Nat) :=
  if -(2 ^ 31) ≤ v ∧ v < 2 ^ 31 then .ok (PEGen.le32 (mask32 v))
  else .error ()

/-- `_emit_modrm_sib` (lines 406-440); the error is the `KeyError` on a
scale outside {1,2,4,8}. -/
def emitModrmSib (mem : Operand) (reg : Nat) : Except Unit (List Nat) :=
  match mem.base, mem.index with
  | none, none => do
    let d ← emitImmediate mem.displacement 4
    pure ([0x00 ||| (reg <<< 3) ||| 0x04, 0x25] ++ d)
  | some b, none =>
    if mem.displacement = 0 then pure [0x00 ||| (reg <<< 3) ||| b]
    else if -128 ≤ mem.displacement ∧ mem.displacement ≤ 127 then
      pure [0x40 ||| (reg <<< 3) ||| b, maskByte mem.displacement]
    else do
      let d ← emitImmediate mem.displacement 4
      pure ([0x80 ||| (reg <<< 3) ||| b] ++ d)
  | base?, some idx => do
    let scaleBits ←
      match mem.scale with
      | 1 => Except.ok 0
      | 2 => Except.ok 1
      | 4 => Except.ok 2
      | 8 => Except.ok 3
      | _ => Except.error ()
    let sib := (scaleBits <<< 6) ||| (idx <<< 3) |||
      (match base? with | some b => b | none => 5)
    let tail ←
      if mem.displacement ≠ 0 ∨ base? = none then
        if base? = none then emitImmediate mem.displacement 4
        else if -128 ≤ mem.displacement ∧ mem.displacement ≤ 127 then
          Except.ok [maskByte mem.displacement]
        else emitImmediate mem.displacement 4
      else Except.ok []
    pure ([0x04 ||| (reg <<< 3), sib] ++ tail)

/-- `_assemble_mov` (lines 261-288).  When none of the four shape cases
matches, nothing beyond a possible REX prefix is emitted; an operand
whose `value` has the wrong payload models Python's `AttributeError`. -/
def assembleMov (dstR srcR : RawOperand) : Except Unit (List Nat) :=
  let dst := parseOperand dstR
  let src := parseOperand srcR
  let rex : List Nat := if needsRex dst || needsRex src then [0x48] else []
  match dst.type, src.type with
  | .register, .register =>
    match dst.value, src.value with
    | .reg d, .reg s => pure (rex ++ [0x89, 0xC0 ||| (s <<< 3) ||| d])
    | _, _ => .error ()
  | .register, .immediate =>
    match dst.value, src.value with
    | .reg d, .int v => do
      let imm ← emitImmediate v dst.size
      pure (rex ++ [0xB8 + d] ++ imm)
    | _, _ => .error ()
  | .register, .memory =>
    match dst.value with
    | .reg d => do
      let m ← emitModrmSib src d
      pure (rex ++ [0x8B] ++ m)
    | _ => .error ()
  | .memory, .register =>
    match src.value with
    | .reg s => do
      let m ← emitModrmSib dst s
      pure (rex ++ [0x89] ++ m)
    | _ => .error ()
  | _, _ => pure rex

/-- `_assemble_push` (lines 290-297): nothing for non-register operands. -/
def assemblePush (opR : RawOperand) : Except Unit (List Nat) :=
  let op := parseOperand opR
  match op.type with
  | .register =>
    match op.value with
    | .reg r => pure ((if needsRex op then [0x41] else []) ++ [0x50 + r])
    | _ => .error ()
  | _ => pure []

/-- `_assemble_pop` (lines 299-306). -/
def assemblePop (opR : RawOperand) : Except Unit (List Nat) :=
  let op := parseOperand opR
  match op.type with
  | .register =>
    match op.value with
    | .reg r => pure ((if needsRex op then [0x41] else []) ++ [0x58 + r])
    | _ => .error ()
  | _ => pure []

/-- `_assemble_sub` (lines 335-352). -/
def assembleSub (dstR srcR : RawOperand) : Except Unit (List Nat) :=
  let dst := parseOperand dstR
  let src := parseOperand srcR
  let rex : List Nat := if needsRex dst || needsRex src then [0x48] else []
  match dst.type, src.type with
  | .register, .immediate =>
    match dst.value, src.value with
    | .reg d, .int v =>
      if -128 ≤ v ∧ v ≤ 127 then pure (rex ++ [0x83, 0xE8 + d, maskByte v])
      else do
        let imm ← emitImmediate v 4
        pure (rex ++ [0x81, 0xE8 + d] ++ imm)
    | _, _ => .error ()
  | _, _ => pure rex

/-- `_assemble_lea` (lines 354-364). -/
def assembleLea (dstR srcR : RawOperand) : Except Unit (List Nat) :=
  let dst := parseOperand dstR
  let src := parseOperand srcR
  let rex : List Nat := if needsRex dst || needsRex src then [0x48] else []
  match dst.value with
  | .reg d => do
    let m ← emitModrmSib src d
    pure (rex ++ [0x8D] ++ m)
  | _ => .error ()

/-- The mutable fields of `X64Assembler` (lines 44-48).  The
`external_symbols` set is a list of which only membership is consumed. -/
structure AsmState where
  code : List Nat
  labels : List (String × Nat)
  fixups : List (Nat × String)
  externalSymbols : List String
deriving Repr, DecidableEq

/-- `_assemble_call_external` (lines 308-313). -/
def assembleCallExternal (st : AsmState) (target : String) : AsmState :=
  let code1 := st.code ++ [0xE8]
  { st with
    code := code1 ++ [0, 0, 0, 0]
    externalSymbols := st.externalSymbols ++ [target]
    fixups := st.fixups ++ [(code1.length, target)] }

/-- `_assemble_call` (lines 315-329). -/
def assembleCall (st : AsmState) (targetR : RawOperand) : Except Unit AsmState :=
  let op := parseOperand targetR
  match op.type with
  | .label =>
    match op.value with
    | .str name =>
      let code1 := st.code ++ [0xE8]
      match st.labels.lookup name with
      | some target => do
        let rel ← packI32 ((target : Int) - (code1.length + 4))
        pure { st with code := code1 ++ rel }
      | none =>
        pure { st with
          code := code1 ++ [0, 0, 0, 0]
          fixups := st.fixups ++ [(code1.length, name)] }
    | _ => .error ()
  | _ =>
    match op.value with
    | .reg r => pure { st with code := st.code ++ [0xFF, 0xD0 ||| r] }
    | _ => .error ()

/-- `_assemble_instruction` (lines 236-259).  Opcodes with no dispatch
branch (notably `add`, `and`, `or`, `xor`) emit nothing. -/
def assembleInstruction (st : AsmState) (instr : XInstr) :
    Except Unit AsmState :=
  if instr.opcode == "mov" then
    match instr.operands with
    | o1 :: o2 :: _ => do
      let bytes ← assembleMov o1 o2
      pure { st with code := st.code ++ bytes }
    | _ => .error ()
  else if instr.opcode == "push" then
    match instr.operands with
    | o :: _ => do
      let bytes ← assemblePush o
      pure { st with code := st.code ++ bytes }
    | _ => .error ()
  else if instr.opcode == "pop" then
    match instr.operands with
    | o :: _ => do
      let bytes ← assemblePop o
      pure { st with code := st.code ++ bytes }
    | _ => .error ()
  else if instr.opcode == "call" then
    match instr.target with
    | some t => pure (assembleCallExternal st t)
    | none =>
      match instr.operands with
      | o :: _ => assembleCall st o
      | [] => .error ()
  else if instr.opcode == "ret" then
    pure { st with code := st.code ++ [0xC3] }
  else if instr.opcode == "sub" then
    match instr.operands with
    | o1 :: o2 :: _ => do
      let bytes ← assembleSub o1 o2
      pure { st with code := st.code ++ bytes }
    | _ => .error ()
  else if instr.opcode == "lea" then
    match instr.operands with
    | o1 :: o2 :: _ => do
      let bytes ← assembleLea o1 o2
      pure { st with code := st.code ++ bytes }
    | _ => .error ()
  else pure st

/-- Pass 1 of `assemble` (lines 57-63): record each label at the running
offset; non-label instructions advance it by their pass-1 size. -/
def pass1 (instructions : List XInstr) : List (String × Nat) :=
  (instructions.foldl (fun (acc : List (String × Nat) × Nat) instr =>
    match instr.label with
    | some name => (Opt.dictSet acc.1 name acc.2, acc.2)
    | none => (acc.1, acc.2 + getInstructionSize instr)) ([], 0)).1

/-- `_apply_fixups` (lines 442-454): external labels are skipped, an
unknown label raises, otherwise the 32-bit displacement is spliced in. -/
def applyFixups (st : AsmState) : Except Unit AsmState :=
  st.fixups.foldlM (fun s (fx : Nat × String) =>
    if s.externalSymbols.contains fx.2 then pure s
    else
      match s.labels.lookup fx.2 with
      | none => .error ()
      | some target => do
        let rel ← packI32 ((target : Int) - (fx.1 + 4))
        pure { s with code := s.code.take fx.1 ++ rel ++ s.code.drop (fx.1 + 4) }) st

/-- `X64Assembler.assemble` (lines 50-73): label pass, emission pass over
non-label instructions, fixups. -/
def assemble (instructions : List XInstr) : Except Unit AsmState := do
  let labels := pass1 instructions
  let st1 ← instructions.foldlM (fun s instr =>
    if instr.label.isSome then pure s else assembleInstruction s instr)
    { code := [], labels := labels, fixups := [], externalSymbols := [] }
  applyFixups st1

end X64

/-! ## Register allocator (backend/register_allocator.py, class
`RegisterAllocator`) -/

namespace RegAlloc

/-- The `Register` enum of register_allocator.py (lines 6-27). -/
inductive Register where
  | rax | rcx | rdx | r8 | r9 | r10 | r11
  | rbx | rsi | rdi | r12 | r13 | r14 | r15
  | rsp | rbp
deriving Repr, DecidableEq

/-- `available_regs` (lines 45-50), in source order; `RSP`/`RBP` are
excluded. -/
def availableRegs : List Register :=
  [.rax, .rcx, .rdx, .r8, .r9, .r10, .r11,
   .rbx, .rsi, .rdi, .r12, .r13, .r14, .r15]

/-- `LiveRange` (lines 29-35).  `end` is spelt `end_`. -/
structure LiveRange where
  start : Nat
  end_ : Nat
  temp : String
  reg : Option Register := none
  spill : Bool := false
deriving Repr, DecidableEq

/-- A value held under an instruction dict's `src1`/`src2` key (the
source checks `isinstance(instr[op], str)`). -/
inductive MVal where
  | str (s : String)
  | int (n : Int)
deriving Repr, DecidableEq

/-- The dict-shaped machine-level instructions this allocator consumes:
optional `dest`, `src`, `src1`, `src2` keys plus an opcode. -/
structure MInstr where
  opcode : String := ""
  dest : Option String := none
  src : Option String := none
  src1 : Option MVal := none
  src2 : Option MVal := none
deriving Repr, DecidableEq

structure MBlock where
  instructions : List MInstr
deriving Repr, DecidableEq

/-- `ir_function`: a dict with `blocks` and `stack_size`. -/
structure IRFunc where
  blocks : List MBlock
  stackSize : Nat := 0
deriving Repr, DecidableEq

/-- The `for lr in self.live_ranges: if lr.temp == instr[op]` search of
`_compute_live_ranges` (lines 97-103): widen the first matching range in
place, reporting whether one was found. -/
def extendFirst (ranges : List LiveRange) (t : String) (idx : Nat) :
    List LiveRange × Bool :=
  match ranges with
  | [] => ([], false)
  | lr :: rest =>
    if lr.temp == t then
      ({ lr with start := min lr.start idx, end_ := max lr.end_ idx } :: rest,
        true)
    else
      let (rest', found) := extendFirst rest t idx
      (lr :: rest', found)

/-- Lines 92-109: record a use, extending an existing range or opening a
new one-point range. -/
def processUse (ranges : List LiveRange) (t : String) (idx : Nat) :
    List LiveRange :=
  let (r', found) := extendFirst ranges t idx
  if found then r' else r' ++ [⟨idx, idx, t, none, false⟩]

/-- Python `set.add` on the (write-only) `live_vars` set. -/
def listAdd (l : List String) (x : String) : List String :=
  if x ∈ l then l else l ++ [x]

/-- One instruction of the backward scan (lines 79-109): a `dest` always
appends a fresh one-point range and discards the temp from `live_vars`;
then `src1` and `src2`, when string-valued, are recorded as uses. -/
def processInstr (st : List LiveRange × List String) (instr : MInstr)
    (idx : Nat) : List LiveRange × List String :=
  let st :=
    match instr.dest with
    | some d =>
      (st.1 ++ [⟨idx, idx, d, none, false⟩], st.2.filter (fun x => x ≠ d))
    | none => st
  let st :=
    match instr.src1 with
    | some (.str t) => (processUse st.1 t idx, listAdd st.2 t)
    | _ => st
  match instr.src2 with
  | some (.str t) => (processUse st.1 t idx, listAdd st.2 t)
  | _ => st

/-- The per-block reverse-order scan with `curr_idx = len - i - 1`. -/
def processBlock (ranges : List LiveRange) (instrs : List MInstr) :
    List LiveRange :=
  (instrs.enum.reverse.foldl
    (fun st (p : Nat × MInstr) => processInstr st p.2 p.1) (ranges, [])).1

/-- `_compute_live_ranges` (lines 70-109): per-block backward scan, all
blocks contributing to one `live_ranges` list. -/
def computeLiveRanges (fn : IRFunc) : List LiveRange :=
  fn.blocks.foldl (fun ranges b => processBlock ranges b.instructions) []

/-- The `networkx.Graph`: insertion-ordered node list plus the list of
added (undirected) edges; self-loops are allowed. -/
structure NXGraph where
  nodes : List String
  adj : List (String × String)
deriving Repr, DecidableEq

def emptyGraph : NXGraph := ⟨[], []⟩

/-- `graph.add_node`: a no-op when the node exists. -/
def addNode (g : NXGraph) (n : String) : NXGraph :=
  if n ∈ g.nodes then g else { g with nodes := g.nodes ++ [n] }

/-- Undirected adjacency. -/
def adjacent (g : NXGraph) (u v : String) : Bool :=
  g.adj.contains (u, v) || g.adj.contains (v, u)

/-- `graph.add_edge`: inserts missing endpoints, no duplicate edges. -/
def addEdgeG (g : NXGraph) (u v : String) : NXGraph :=
  let g := addNode (addNode g u) v
  if adjacent g u v then g else { g with adj := g.adj ++ [(u, v)] }

/-- `graph.remove_node`: drops the node and its incident edges. -/
def removeNode (g : NXGraph) (n : String) : NXGraph :=
  { nodes := g.nodes.filter (fun x => x ≠ n),
    adj := g.adj.filter (fun e => e.1 ≠ n ∧ e.2 ≠ n) }

/-- `set(graph.neighbors(node))` (only membership is consumed). -/
def nbrs (g : NXGraph) (u : String) : List String :=
  g.nodes.filter (fun v => adjacent g u v)

/-- `graph.degree(node)`: incident edges, self-loops counting twice. -/
def degree (g : NXGraph) (u : String) : Nat :=
  (g.adj.filter (fun e => e.1 == u || e.2 == u)).length +
  (g.adj.filter (fun e => e.1 == u && e.2 == u)).length

/-- The interval-overlap test of line 122. -/
def overlap (a b : LiveRange) : Bool :=
  a.start ≤ b.end_ && b.start ≤ a.end_

/-- The nested pair loop of `_build_interference_graph` (lines 120-123):
an edge for every `i < j` pair of overlapping ranges. -/
def addInterferenceEdges : NXGraph → List LiveRange → NXGraph
  | g, [] => g
  | g, lr :: rest =>
    addInterferenceEdges
      (rest.foldl (fun g2 lr2 =>
        if overlap lr lr2 then addEdgeG g2 lr.temp lr2.temp else g2) g)
      rest

/-- `_build_interference_graph` (lines 111-123). -/
def buildInterferenceGraph (ranges : List LiveRange) : NXGraph :=
  addInterferenceEdges
    (ranges.foldl (fun g lr => addNode g lr.temp) emptyGraph) ranges

/-- The `for node in graph.nodes()` scan that pushes the first node with
degree below 14 (lines 139-144). -/
def findLowDegree (g : NXGraph) : Option String :=
  g.nodes.find? (fun n => degree g n < availableRegs.length)

/-- The `spill_candidate` selection (lines 145-147): the first node of
minimal degree, reached only when no node has degree below 14. -/
def minDegreeNode (g : NXGraph) : Option String :=
  g.nodes.foldl (fun best n =>
    match best with
    | none => some n
    | some b => if degree g n < degree g b then some n else best) none

/-- The simplification loop of `_color_graph` (lines 130-153): push a
low-degree node with its current neighbour set, else remove and spill the
minimal-degree node.  Each iteration removes one node, so fuel equal to
the node count always suffices; exhaustion returns the state reached. -/
def simplifyGo : Nat → NXGraph → List (String × List String) →
    List String → List (String × List String) × List String
  | 0, _, stack, spilled => (stack, spilled)
  | fuel + 1, g, stack, spilled =>
    if g.nodes.isEmpty then (stack, spilled)
    else
      match findLowDegree g with
      | some n =>
        simplifyGo fuel (removeNode g n) (stack ++ [(n, nbrs g n)]) spilled
      | none =>
        match minDegreeNode g with
        | some c => simplifyGo fuel (removeNode g c) stack (spilled ++ [c])
        | none => (stack, spilled)

/-- The unwinding loop of `_color_graph` (lines 155-171), processing the
stack top-first: assign the first available register not used by an
already-coloured captured neighbour, else spill. -/
def colorPop : List (String × List String) → List (String × Register) →
    List String → List (String × Register) × List String
  | [], coloring, spilled => (coloring, spilled)
  | (node, neighbors) :: rest, coloring, spilled =>
    let used := neighbors.filterMap (fun nb => coloring.lookup nb)
    match availableRegs.find? (fun r => !used.contains r) with
    | some r => colorPop rest (coloring ++ [(node, r)]) spilled
    | none => colorPop rest coloring (spilled ++ [node])

/-- `_color_graph` (lines 125-171). -/
def colorGraph (g : NXGraph) : List (String × Register) × List String :=
  let (stack, spilled) := simplifyGo g.nodes.length g [] []
  colorPop stack.reverse [] spilled

/-- `_handle_spills` (lines 173-211).  The iteration order of the
`spilled_vars` set — unspecified in CPython — is taken to be insertion
order; no claim depends on the offsets it produces. -/
def handleSpills (fn : IRFunc) (spilled : List String) : IRFunc :=
  let locs : List (String × Nat) :=
    (spilled.foldl (fun (acc : List (String × Nat) × Nat) v =>
      (acc.1 ++ [(v, acc.2 + 8)], acc.2 + 8)) ([], 0)).1
  let rewriteInstr : MInstr → List MInstr := fun instr =>
    let stores :=
      match instr.dest with
      | some d =>
        if spilled.contains d then
          [({ opcode := "mov",
              dest := some ("[rbp-" ++ toString ((locs.lookup d).getD 0) ++ "]"),
              src := some "rax" } : MInstr)]
        else []
      | none => []
    let step : MInstr × List MInstr → (MInstr → Option MVal) →
        ((MInstr → Option MVal → MInstr)) → MInstr × List MInstr :=
      fun acc get set =>
        match get acc.1 with
        | some (.str t) =>
          if spilled.contains t then
            (set acc.1 (some (.str "r11")),
             acc.2 ++ [({ opcode := "mov", dest := some "r11",
                          src := some ("[rbp-" ++
                            toString ((locs.lookup t).getD 0) ++ "]") } :
                          MInstr)])
          else acc
        | _ => acc
    let acc0 : MInstr × List MInstr := (instr, stores)
    let acc1 := step acc0 (fun i => i.src1) (fun i v => { i with src1 := v })
    let acc2 := step acc1 (fun i => i.src2) (fun i v => { i with src2 := v })
    acc2.2 ++ [acc2.1]
  { blocks := fn.blocks.map (fun b =>
      ⟨b.instructions.flatMap rewriteInstr⟩),
    stackSize := max fn.stackSize (8 * spilled.length) }

/-- The outcome of `allocate_registers`: the instance state after the
call (the method itself returns `self.coloring`). -/
structure AllocResult where
  liveRanges : List LiveRange
  coloring : List (String × Register)
  spilledVars : List String
  fn : IRFunc
deriving Repr, DecidableEq

/-- `RegisterAllocator.allocate_registers` (lines 52-68). -/
def allocateRegisters (fn : IRFunc) : AllocResult :=
  let ranges := computeLiveRanges fn
  let g := buildInterferenceGraph ranges
  let (coloring, spilled) := colorGraph g
  let fn' := if spilled ≠ [] then handleSpills fn spilled else fn
  ⟨ranges, coloring, spilled, fn'⟩


/-! ### Lemmas for claim C5: the colouring never assigns one register to
two interfering, non-spilled temps. -/

theorem adjacent_comm (g : NXGraph) (u v : String) :
    adjacent g u v = adjacent g v u := by
  simp [adjacent, Bool.or_comm]

theorem adjacent_iff {g : NXGraph} {u v : String} :
    adjacent g u v = true ↔ (u, v) ∈ g.adj ∨ (v, u) ∈ g.adj := by
  simp [adjacent, List.elem_iff]

theorem adj_addNode (g : NXGraph) (n : String) :
    (addNode g n).adj = g.adj := by
  unfold addNode
  split <;> rfl

theorem adjacent_addNode (g : NXGraph) (n u v : String) :
    adjacent (addNode g n) u v = adjacent g u v := by
  unfold addNode
  split <;> rfl

theorem nodes_addNode_sup {g : NXGraph} {n : String} :
    ∀ m ∈ g.nodes, m ∈ (addNode g n).nodes := by
  intro m hm
  unfold addNode
  split
  · exact hm
  · exact List.mem_append_left _ hm

theorem adjacent_addEdgeG_of {g : NXGraph} {u v : String} (a b : String)
    (h : adjacent g u v = true) : adjacent (addEdgeG g a b) u v = true := by
  unfold addEdgeG
  dsimp only
  split
  · rwa [adjacent_addNode, adjacent_addNode]
  · rw [adjacent_iff]
    rw [adjacent_iff] at h
    rcases h with h | h
    · exact Or.inl (by simp [adj_addNode, h])
    · exact Or.inr (by simp [adj_addNode, h])

theorem adjacent_addEdgeG_self (g : NXGraph) (a b : String) :
    adjacent (addEdgeG g a b) a b = true := by
  unfold addEdgeG
  dsimp only
  split
  · next hadj => rwa [adjacent_addNode, adjacent_addNode] at hadj ⊢
  · rw [adjacent_iff]
    exact Or.inl (by simp [adj_addNode])

theorem adjacent_removeNode {g : NXGraph} {n u v : String}
    (hu : u ≠ n) (hv : v ≠ n) :
    adjacent (removeNode g n) u v = adjacent g u v := by
  simp only [removeNode, adjacent]
  congr 1 <;> rw [Bool.eq_iff_iff] <;>
    simp [List.elem_iff, List.mem_filter, hu, hv]

theorem mem_nodes_removeNode {g : NXGraph} {n m : String}
    (h : m ∈ (removeNode g n).nodes) : m ∈ g.nodes ∧ m ≠ n := by
  simpa [removeNode, List.mem_filter] using h

theorem foldl_edges_preserves {lr : LiveRange} {u v : String}
    (rest : List LiveRange) :
    ∀ (g : NXGraph), adjacent g u v = true →
    adjacent (rest.foldl (fun g2 lr2 =>
      if overlap lr lr2 then addEdgeG g2 lr.temp lr2.temp else g2) g) u v
      = true := by
  induction rest with
  | nil => intro g h; exact h
  | cons x xs ih =>
    intro g h
    simp only [List.foldl_cons]
    apply ih
    split
    · exact adjacent_addEdgeG_of _ _ h
    · exact h

theorem foldl_edges_adds {lr lr2 : LiveRange} (rest : List LiveRange)
    (hmem : lr2 ∈ rest) (hov : overlap lr lr2 = true) :
    ∀ (g : NXGraph),
    adjacent (rest.foldl (fun g2 x =>
      if overlap lr x then addEdgeG g2 lr.temp x.temp else g2) g)
      lr.temp lr2.temp = true := by
  induction rest with
  | nil => exact absurd hmem (by simp)
  | cons x xs ih =>
    intro g
    simp only [List.foldl_cons]
    rcases List.mem_cons.mp hmem with rfl | hmem'
    · rw [if_pos hov]
      exact foldl_edges_preserves xs _ (adjacent_addEdgeG_self _ _ _)
    · exact ih hmem' _

theorem addInterferenceEdges_preserves {u v : String}
    (l : List LiveRange) :
    ∀ (g : NXGraph), adjacent g u v = true →
    adjacent (addInterferenceEdges g l) u v = true := by
  induction l with
  | nil => intro g h; exact h
  | cons lr rest ih =>
    intro g h
    simp only [addInterferenceEdges]
    exact ih _ (foldl_edges_preserves rest g h)

theorem addInterferenceEdges_adjacent {lr1 lr2 : LiveRange}
    (l : List LiveRange) (h1 : lr1 ∈ l) (h2 : lr2 ∈ l)
    (hne : lr1.temp ≠ lr2.temp) (hov : overlap lr1 lr2 = true) :
    ∀ (g : NXGraph),
    adjacent (addInterferenceEdges g l) lr1.temp lr2.temp = true := by
  induction l with
  | nil => exact absurd h1 (by simp)
  | cons x xs ih =>
    intro g
    simp only [addInterferenceEdges]
    rcases List.mem_cons.mp h1 with rfl | h1'
    · rcases List.mem_cons.mp h2 with rfl | h2'
      · exact absurd rfl hne
      · exact addInterferenceEdges_preserves xs _
          (foldl_edges_adds xs h2' hov g)
    · rcases List.mem_cons.mp h2 with rfl | h2'
      · have hov' : overlap lr2 lr1 = true := by
          simp only [overlap] at hov ⊢
          rw [Bool.and_comm]
          exact hov
        rw [adjacent_comm]
        exact addInterferenceEdges_preserves xs _
          (foldl_edges_adds xs h1' hov' g)
      · exact ih h1' h2' _

theorem lookup_of_mem_nodup {β : Type} {l : List (String × β)} {a : String}
    {b : β} (h : (a, b) ∈ l) (nd : (l.map Prod.fst).Nodup) :
    l.lookup a = some b := by
  induction l with
  | nil => exact absurd h (by simp)
  | cons x xs ih =>
    rcases List.mem_cons.mp h with rfl | h'
    · simp [List.lookup]
    · obtain ⟨hx, hxs⟩ := List.nodup_cons.mp nd
      have hax : x.1 ≠ a := by
        intro he
        exact hx (he ▸ (List.mem_map.mpr ⟨(a, b), h', rfl⟩))
      have hbeq : (a == x.1) = false := beq_eq_false_iff_ne.mpr (Ne.symm hax)
      simp only [List.lookup, hbeq]
      exact ih h' hxs

theorem mem_of_lookup {β : Type} {l : List (String × β)} {a : String}
    {b : β} (h : l.lookup a = some b) : (a, b) ∈ l := by
  induction l with
  | nil => simp [List.lookup] at h
  | cons x xs ih =>
    simp only [List.lookup] at h
    split at h
    · next heq =>
      obtain rfl : a = x.1 := by simpa [beq_iff_eq] using heq
      cases h
      exact List.mem_cons_self _ _
    · exact List.mem_cons_of_mem _ (ih h)

theorem simplifyGo_spec (g0 : NXGraph) (fuel : Nat) :
    ∀ (g : NXGraph) (stack : List (String × List String))
      (spilled : List String),
    (∀ u v, u ∈ g.nodes → v ∈ g.nodes → adjacent g u v = adjacent g0 u v) →
    (∀ p ∈ stack, ∀ m, m ∈ g.nodes → adjacent g0 p.1 m = true → m ∈ p.2) →
    (∀ p ∈ stack, p.1 ∉ g.nodes) →
    (stack.map Prod.fst).Nodup →
    stack.Pairwise (fun a b => adjacent g0 b.1 a.1 = true → b.1 ∈ a.2) →
    ((simplifyGo fuel g stack spilled).1.map Prod.fst).Nodup ∧
    (simplifyGo fuel g stack spilled).1.Pairwise
      (fun a b => adjacent g0 b.1 a.1 = true → b.1 ∈ a.2) := by
  induction fuel with
  | zero =>
    intro g stack spilled _ _ _ hnd hpw
    exact ⟨hnd, hpw⟩
  | succ n ih =>
    intro g stack spilled hadj hsnap hout hnd hpw
    rw [simplifyGo]
    split
    · exact ⟨hnd, hpw⟩
    · cases hfind : findLowDegree g with
      | some nd =>
        have hndmem : nd ∈ g.nodes := List.mem_of_find?_eq_some hfind
        apply ih
        · intro u v hu hv
          obtain ⟨hu', hun⟩ := mem_nodes_removeNode hu
          obtain ⟨hv', hvn⟩ := mem_nodes_removeNode hv
          rw [adjacent_removeNode hun hvn]
          exact hadj u v hu' hv'
        · intro p hp m hm hadj0
          obtain ⟨hm', hmn⟩ := mem_nodes_removeNode hm
          rcases List.mem_append.mp hp with hp' | hp'
          · exact hsnap p hp' m hm' hadj0
          · have : p = (nd, nbrs g nd) := by simpa using hp'
            subst this
            simp only [nbrs, List.mem_filter]
            refine ⟨hm', ?_⟩
            rw [hadj nd m hndmem hm']
            exact hadj0
        · intro p hp
          rcases List.mem_append.mp hp with hp' | hp'
          · intro hmem
            exact hout p hp' (mem_nodes_removeNode hmem).1
          · have : p = (nd, nbrs g nd) := by simpa using hp'
            subst this
            intro hmem
            exact (mem_nodes_removeNode hmem).2 rfl
        · rw [List.map_append, List.nodup_append]
          refine ⟨hnd, by simp, ?_⟩
          intro x hx
          obtain ⟨p, hp, rfl⟩ := List.mem_map.mp hx
          intro hmem
          have he : p.1 = nd := by simpa using hmem
          exact hout p hp (he ▸ hndmem)
        · rw [List.pairwise_append]
          refine ⟨hpw, by simp, ?_⟩
          intro a ha b hb
          have : b = (nd, nbrs g nd) := by simpa using hb
          subst this
          intro hadj0
          exact hsnap a ha nd hndmem (by rwa [adjacent_comm] at hadj0)
      | none =>
        cases hmin : minDegreeNode g with
        | some c =>
          apply ih
          · intro u v hu hv
            obtain ⟨hu', hun⟩ := mem_nodes_removeNode hu
            obtain ⟨hv', hvn⟩ := mem_nodes_removeNode hv
            rw [adjacent_removeNode hun hvn]
            exact hadj u v hu' hv'
          · intro p hp m hm hadj0
            exact hsnap p hp m (mem_nodes_removeNode hm).1 hadj0
          · intro p hp hmem
            exact hout p hp (mem_nodes_removeNode hmem).1
          · exact hnd
          · exact hpw
        | none => exact ⟨hnd, hpw⟩

theorem colorPop_spec (g0 : NXGraph) :
    ∀ (L : List (String × List String)) (coloring : List (String × Register))
      (spilled : List String),
    (L.map Prod.fst).Nodup →
    L.Pairwise (fun a b => adjacent g0 a.1 b.1 = true → a.1 ∈ b.2) →
    (∀ p ∈ L, ∀ q ∈ coloring, adjacent g0 q.1 p.1 = true → q.1 ∈ p.2) →
    (∀ p ∈ L, p.1 ∉ coloring.map Prod.fst) →
    (coloring.map Prod.fst).Nodup →
    (∀ q1 ∈ coloring, ∀ q2 ∈ coloring,
      q1.1 ≠ q2.1 → adjacent g0 q1.1 q2.1 = true → q1.2 ≠ q2.2) →
    ((colorPop L coloring spilled).1.map Prod.fst).Nodup ∧
    (∀ q1 ∈ (colorPop L coloring spilled).1,
     ∀ q2 ∈ (colorPop L coloring spilled).1,
      q1.1 ≠ q2.1 → adjacent g0 q1.1 q2.1 = true → q1.2 ≠ q2.2) := by
  intro L
  induction L with
  | nil =>
    intro coloring spilled _ _ _ _ hcnd hgood
    exact ⟨hcnd, hgood⟩
  | cons hd rest ih =>
    obtain ⟨n, N⟩ := hd
    intro coloring spilled hnd hpw hsnap hdisj hcnd hgood
    rw [colorPop]
    have hndtail : (rest.map Prod.fst).Nodup := (List.nodup_cons.mp hnd).2
    have hnhd : n ∉ rest.map Prod.fst := (List.nodup_cons.mp hnd).1
    have hpwtail := (List.pairwise_cons.mp hpw).2
    have hpwhead := (List.pairwise_cons.mp hpw).1
    cases hfind : availableRegs.find?
        (fun r => !(N.filterMap (fun nb => coloring.lookup nb)).contains r) with
    | some r =>
      have hrfree : r ∉ N.filterMap (fun nb => coloring.lookup nb) := by
        have := List.find?_some hfind
        simpa [List.elem_iff] using this
      apply ih
      · exact hndtail
      · exact hpwtail
      · intro p hp q hq hadj0
        rcases List.mem_append.mp hq with hq' | hq'
        · exact hsnap p (List.mem_cons_of_mem _ hp) q hq' hadj0
        · have : q = (n, r) := by simpa using hq'
          subst this
          exact hpwhead p hp hadj0
      · intro p hp
        rw [List.map_append]
        intro hmem
        rcases List.mem_append.mp hmem with hm | hm
        · exact hdisj p (List.mem_cons_of_mem _ hp) hm
        · have : p.1 = n := by simpa using hm
          exact hnhd (this ▸ List.mem_map.mpr ⟨p, hp, rfl⟩)
      · rw [List.map_append, List.nodup_append]
        refine ⟨hcnd, by simp, ?_⟩
        intro x hx
        obtain ⟨q, hq, rfl⟩ := List.mem_map.mp hx
        intro hmem
        have he : q.1 = n := by simpa using hmem
        exact hdisj (n, N) (List.mem_cons_self _ _) (he ▸ List.mem_map.mpr ⟨q, hq, rfl⟩)
      · intro q1 hq1 q2 hq2 hne hadj0
        rcases List.mem_append.mp hq1 with h1 | h1
        · rcases List.mem_append.mp hq2 with h2 | h2
          · exact hgood q1 h1 q2 h2 hne hadj0
          · -- q2 is the new pair (n, r)
            have e2 : q2 = (n, r) := by simpa using h2
            subst e2
            have hmN : q1.1 ∈ N :=
              hsnap (n, N) (List.mem_cons_self _ _) q1 h1 hadj0
            have hlk : coloring.lookup q1.1 = some q1.2 :=
              lookup_of_mem_nodup (by simpa using h1) hcnd
            intro he
            have he' : q1.2 = r := he
            apply hrfree
            rw [← he']
            exact List.mem_filterMap.mpr ⟨q1.1, hmN, hlk⟩
        · have e1 : q1 = (n, r) := by simpa using h1
          subst e1
          rcases List.mem_append.mp hq2 with h2 | h2
          · have hmN : q2.1 ∈ N := by
              apply hsnap (n, N) (List.mem_cons_self _ _) q2 h2
              rwa [adjacent_comm] at hadj0
            have hlk : coloring.lookup q2.1 = some q2.2 :=
              lookup_of_mem_nodup (by simpa using h2) hcnd
            intro he
            have he' : r = q2.2 := he
            apply hrfree
            rw [he']
            exact List.mem_filterMap.mpr ⟨q2.1, hmN, hlk⟩
          · have e2 : q2 = (n, r) := by simpa using h2
            rw [e2] at hne
            exact absurd rfl hne
    | none =>
      apply ih
      · exact hndtail
      · exact hpwtail
      · intro p hp q hq hadj0
        exact hsnap p (List.mem_cons_of_mem _ hp) q hq hadj0
      · intro p hp
        exact hdisj p (List.mem_cons_of_mem _ hp)
      · exact hcnd
      · exact hgood

theorem colorGraph_good (g0 : NXGraph) :
    ((colorGraph g0).1.map Prod.fst).Nodup ∧
    (∀ q1 ∈ (colorGraph g0).1, ∀ q2 ∈ (colorGraph g0).1,
      q1.1 ≠ q2.1 → adjacent g0 q1.1 q2.1 = true → q1.2 ≠ q2.2) := by
  unfold colorGraph
  rcases hsim : simplifyGo g0.nodes.length g0 [] [] with ⟨stack, spilled⟩
  have hspec := simplifyGo_spec g0 g0.nodes.length g0 [] []
    (fun u v _ _ => rfl) (by simp) (by simp) (by simp) (by simp)
  rw [hsim] at hspec
  obtain ⟨hnd, hpw⟩ := hspec
  have hrnd : ((stack.reverse).map Prod.fst).Nodup := by
    rw [List.map_reverse]
    exact List.nodup_reverse.mpr hnd
  have hrpw : (stack.reverse).Pairwise
      (fun a b => adjacent g0 a.1 b.1 = true → a.1 ∈ b.2) := by
    rw [List.pairwise_reverse]
    exact hpw
  exact colorPop_spec g0 stack.reverse [] spilled hrnd hrpw
    (by simp) (by simp) (by simp) (by simp)
end RegAlloc

/-! ## Lexer (lexer.py, class `MetaForgeLexer`) -/

namespace Lexer

/-- The `TokenType` members `tokenize` can construct. -/
inductive TokenType where
  | FUNC | FN | IF | ELSE | WHILE | FOR | IN | RETURN | BREAK | CONTINUE
  | CLASS | EXTENDS | IMPLEMENTS | INTERFACE | PUBLIC | PRIVATE | PROTECTED
  | STATIC | FINAL | ABSTRACT | ASYNC | AWAIT | SPAWN | AUTO | CONST | LET
  | VAR | RANGE | IMPORT | RET | TYPE | HYBRID
  | INTEGER | FLOAT | STRING | IDENTIFIER | COMMENT | EOF | ARROW
  | LEFT_PAREN | RIGHT_PAREN | LEFT_BRACE | RIGHT_BRACE
  | LEFT_BRACKET | RIGHT_BRACKET | COMMA | DOT | COLON | SEMICOLON | AT
  | GENERIC_LESS_THAN | GENERIC_GREATER_THAN
deriving Repr, DecidableEq

/-- A token's `value` field, which Python fills with a `str`, an `int`
(integer literals) or a `float` (float literals, idealised over `ℚ`). -/
inductive TokVal where
  | s (v : String)
  | i (n : Int)
  | f (q : ℚ)
deriving Repr, DecidableEq

/-- `Token` (lines 157-165). -/
structure Token where
  type : TokenType
  value : TokVal
  line : Nat
  column : Nat
deriving Repr, DecidableEq

/-- The `KEYWORDS` dict (lines 116-155). -/
def KEYWORDS : List (String × TokenType) :=
  [("func", .FUNC), ("fn", .FN), ("if", .IF), ("else", .ELSE),
   ("while", .WHILE), ("for", .FOR), ("in", .IN), ("return", .RETURN),
   ("break", .BREAK), ("continue", .CONTINUE), ("class", .CLASS),
   ("extends", .EXTENDS), ("implements", .IMPLEMENTS),
   ("interface", .INTERFACE), ("public", .PUBLIC), ("private", .PRIVATE),
   ("protected", .PROTECTED), ("static", .STATIC), ("final", .FINAL),
   ("abstract", .ABSTRACT), ("async", .ASYNC), ("await", .AWAIT),
   ("spawn", .SPAWN), ("auto", .AUTO), ("const", .CONST), ("let", .LET),
   ("var", .VAR), ("range", .RANGE), ("import", .IMPORT), ("ret", .RET),
   ("hybrid", .HYBRID), ("i32", .TYPE), ("i64", .TYPE), ("f32", .TYPE),
   ("f64", .TYPE), ("bool", .TYPE), ("string", .TYPE), ("void", .TYPE)]

/-- `str.isspace()` on the ASCII fragment the claims range over. -/
def pyIsSpace (c : Char) : Bool :=
  c == ' ' || c == '\t' || c == '\n' || c == '\r' ||
  c == '\x0b' || c == '\x0c'

def pyIsDigit (c : Char) : Bool := '0' ≤ c && c ≤ '9'

/-- `str.isalpha()` on the ASCII fragment. -/
def pyIsAlpha (c : Char) : Bool :=
  ('a' ≤ c && c ≤ 'z') || ('A' ≤ c && c ≤ 'Z')

def pyIsAlnum (c : Char) : Bool := pyIsAlpha c || pyIsDigit c

/-- `str.lower()` on ASCII. -/
def lowerChar (c : Char) : Char :=
  if 'A' ≤ c ∧ c ≤ 'Z' then Char.ofNat (c.toNat + 32) else c

def pyLower (s : String) : String := String.mk (s.data.map lowerChar)

/-- The single-character dispatch of lines 284-313: only these characters
of the scanned set `+-*/%=<>!&|^~()[]{},.:;@` get a token; for the rest
of the set `token` stays `None` and control falls through to the
unknown-character path. -/
def singleTok (c : Char) : Option TokenType :=
  if c = '(' then some .LEFT_PAREN
  else if c = ')' then some .RIGHT_PAREN
  else if c = '\x7b' then some .LEFT_BRACE
  else if c = '\x7d' then some .RIGHT_BRACE
  else if c = '[' then some .LEFT_BRACKET
  else if c = ']' then some .RIGHT_BRACKET
  else if c = ',' then some .COMMA
  else if c = '.' then some .DOT
  else if c = ':' then some .COLON
  else if c = ';' then some .SEMICOLON
  else if c = '@' then some .AT
  else if c = '<' then some .GENERIC_LESS_THAN
  else if c = '>' then some .GENERIC_GREATER_THAN
  else none

/-- The multi-line-comment loop (lines 206-216): runs while at least two
characters remain (`pos < len - 1`); `*/` is consumed and ends the scan;
newlines bump the line counter.  Returns the consumed characters, the
rest, and the final line/column. -/
def scanBlock : List Char → Nat → Nat → List Char × List Char × Nat × Nat
  | c :: d :: cs, line, col =>
    if c = '*' ∧ d = '/' then ([c, d], cs, line, col + 2)
    else
      let ln := if c = '\n' then line + 1 else line
      let cl := if c = '\n' then 1 else col + 1
      let (t, r, l2, c2) := scanBlock (d :: cs) ln cl
      (c :: t, r, l2, c2)
  | rest, line, col => ([], rest, line, col)

/-- The string-scanning loop (lines 244-250): stop before a matching
quote; a backslash consumes two characters and advances the column by
two (even when it is the last character).  Returns the consumed
characters, the rest, and the column delta. -/
def scanStr (q : Char) : List Char → List Char × List Char × Nat
  | [] => ([], [], 0)
  | c :: cs =>
    if c = q then ([], c :: cs, 0)
    else if c = '\\' then
      match cs with
      | [] => ([c], [], 2)
      | d :: cs2 =>
        let (t, r, dc) := scanStr q cs2
        (c :: d :: t, r, dc + 2)
    else
      let (t, r, dc) := scanStr q cs
      (c :: t, r, dc + 1)

/-- Does the string scan starting after the opening quote consume the
entire rest of the input (no matching closing quote is ever reached)? -/
def scanConsumesAll (q : Char) : List Char → Bool
  | [] => true
  | c :: cs =>
    if c = q then false
    else if c = '\\' then
      match cs with
      | [] => true
      | _ :: cs2 => scanConsumesAll q cs2
    else scanConsumesAll q cs

/-- Does the character list start with the given character?  (The
`self.pos + 1 < len(self.source)` bound plus the next-character test of
lines 190-191, 201 and 275-277.) -/
def headIs (x : Char) : List Char → Bool
  | y :: _ => y = x
  | [] => false

/-- The scanning loop of `MetaForgeLexer.tokenize` (lines 175-329) over
the remaining characters, carrying the current line and column and
collecting the `logging.error` reports for skipped characters.  The
`Except.error` case models the uncaught `ValueError` that `float(...)`
raises on a digit-and-dot run with two or more dots (line 230).  Every
iteration consumes at least one character, so the fuel `tokenize`
supplies is never exhausted. -/
def tokenizeGo : Nat → List Char → Nat → Nat →
    Except Unit (List Token × List (Char × Nat × Nat))
  | 0, _, _, _ => .error ()
  | _ + 1, [], line, col => .ok ([⟨.EOF, .s "", line, col⟩], [])
  | fuel + 1, c :: cs, line, col =>
    if pyIsSpace c then
      if c = '\n' then tokenizeGo fuel cs (line + 1) 1
      else tokenizeGo fuel cs line (col + 1)
    else if c = '/' && headIs '/' cs then
      let cm := (c :: cs).takeWhile (fun x => x != '\n')
      let rest := (c :: cs).drop cm.length
      match tokenizeGo fuel rest line (col + cm.length) with
      | .ok (toks, errs) =>
        .ok (⟨.COMMENT, .s (String.mk cm), line, col⟩ :: toks, errs)
      | .error e => .error e
    else if c = '/' && headIs '*' cs then
      let (t, rest, l2, c2) := scanBlock (cs.drop 1) line (col + 2)
      match tokenizeGo fuel rest l2 c2 with
      | .ok (toks, errs) =>
        .ok (⟨.COMMENT, .s (String.mk ('/' :: '*' :: t)), l2, col⟩ :: toks,
          errs)
      | .error e => .error e
    else if pyIsDigit c then
      let cm := (c :: cs).takeWhile (fun x => pyIsDigit x || x = '.')
      let rest := (c :: cs).drop cm.length
      if cm.contains '.' then
        match pyFloat (String.mk cm) with
        | none => .error ()
        | some q =>
          match tokenizeGo fuel rest line (col + cm.length) with
          | .ok (toks, errs) =>
            .ok (⟨.FLOAT, .f q, line, col⟩ :: toks, errs)
          | .error e => .error e
      else
        match tokenizeGo fuel rest line (col + cm.length) with
        | .ok (toks, errs) =>
          .ok (⟨.INTEGER, .i (natOfDigits cm), line, col⟩ :: toks, errs)
        | .error e => .error e
    else if c = '"' || c = '\'' then
      let (t, rest, dc) := scanStr c cs
      match rest with
      | r0 :: rrest =>
        match tokenizeGo fuel rrest line (col + 1 + dc + 1) with
        | .ok (toks, errs) =>
          .ok (⟨.STRING, .s (String.mk (c :: (t ++ [r0]))), line, col⟩ :: toks,
            errs)
        | .error e => .error e
      | [] =>
        match tokenizeGo fuel [] line (col + 1 + dc) with
        | .ok (toks, errs) =>
          .ok (⟨.STRING, .s (String.mk (c :: t)), line, col⟩ :: toks, errs)
        | .error e => .error e
    else if pyIsAlpha c || c = '_' then
      let cm := (c :: cs).takeWhile (fun x => pyIsAlnum x || x = '_')
      let rest := (c :: cs).drop cm.length
      let value := String.mk cm
      let tt := (KEYWORDS.lookup (pyLower value)).getD .IDENTIFIER
      match tokenizeGo fuel rest line (col + cm.length) with
      | .ok (toks, errs) =>
        .ok (⟨tt, .s value, line, col⟩ :: toks, errs)
      | .error e => .error e
    else if c = '-' && headIs '>' cs then
      match tokenizeGo fuel (cs.drop 1) line (col + 2) with
      | .ok (toks, errs) =>
        .ok (⟨.ARROW, .s "->", line, col⟩ :: toks, errs)
      | .error e => .error e
    else
      match singleTok c with
      | some tt =>
        match tokenizeGo fuel cs line (col + 1) with
        | .ok (toks, errs) =>
          .ok (⟨tt, .s (String.mk [c]), line, col⟩ :: toks, errs)
        | .error e => .error e
      | none =>
        -- lines 322-325: unknown character (this is also where the
        -- operator characters with no token branch end up)
        match tokenizeGo fuel cs line (col + 1) with
        | .ok (toks, errs) => .ok (toks, (c, line, col) :: errs)
        | .error e => .error e

/-- `MetaForgeLexer.tokenize` (lines 175-329): scan the whole source and
append the single EOF token.  The result also carries the list of
unknown-character reports the source would send to `logging.error`. -/
def tokenize (source : String) : Except Unit (List Token × List (Char × Nat × Nat)) :=
  tokenizeGo (source.length + 1) source.data 1 1

/-- The total column delta a string scan produces. -/
def scanDelta (q : Char) (cs : List Char) : Nat := (scanStr q cs).2.2

end Lexer

/-- C5: after `allocate_registers`, two live ranges whose intervals
overlap (so the interference graph has an edge between their temps) and
whose temps both received registers get distinct registers. -/
theorem c5_interfering_ranges_get_distinct_registers
    (fn : RegAlloc.IRFunc) (lr1 lr2 : RegAlloc.LiveRange)
    (h1 : lr1 ∈ (RegAlloc.allocateRegisters fn).liveRanges)
    (h2 : lr2 ∈ (RegAlloc.allocateRegisters fn).liveRanges)
    (hov : RegAlloc.overlap lr1 lr2 = true)
    (hne : lr1.temp ≠ lr2.temp)
    (r1 r2 : RegAlloc.Register)
    (hc1 : (RegAlloc.allocateRegisters fn).coloring.lookup lr1.temp = some r1)
    (hc2 : (RegAlloc.allocateRegisters fn).coloring.lookup lr2.temp = some r2) :
    r1 ≠ r2 := by
  have hlr : (RegAlloc.allocateRegisters fn).liveRanges =
      RegAlloc.computeLiveRanges fn := rfl
  have hcol : (RegAlloc.allocateRegisters fn).coloring =
      (RegAlloc.colorGraph
        (RegAlloc.buildInterferenceGraph (RegAlloc.computeLiveRanges fn))).1 :=
    rfl
  rw [hlr] at h1 h2
  rw [hcol] at hc1 hc2
  have hadj : RegAlloc.adjacent
      (RegAlloc.buildInterferenceGraph (RegAlloc.computeLiveRanges fn))
      lr1.temp lr2.temp = true :=
    RegAlloc.addInterferenceEdges_adjacent _ h1 h2 hne hov _
  obtain ⟨hnd, hgood⟩ := RegAlloc.colorGraph_good
    (RegAlloc.buildInterferenceGraph (RegAlloc.computeLiveRanges fn))
  exact hgood (lr1.temp, r1) (RegAlloc.mem_of_lookup hc1)
    (lr2.temp, r2) (RegAlloc.mem_of_lookup hc2) hne hadj

/-- The function used to witness C5: one block in which `t0` is defined
and then used while `t1` is defined, so their ranges overlap. -/
def c5Fn : RegAlloc.IRFunc :=
  { blocks := [⟨[{ dest := some "t0" },
                 { dest := some "t1", src1 := some (.str "t0") }]⟩] }

/-- Witness for C5: on `c5Fn` the overlapping ranges of `t1` and `t0` are
coloured `rcx` and `rax` respectively, and the theorem yields their
distinctness. -/
theorem c5_distinct_registers_witness :
    (⟨1, 1, "t1", none, false⟩ : RegAlloc.LiveRange) ∈
      (RegAlloc.allocateRegisters c5Fn).liveRanges ∧
    RegAlloc.Register.rcx ≠ RegAlloc.Register.rax :=
  ⟨by decide,
   c5_interfering_ranges_get_distinct_registers c5Fn
     ⟨1, 1, "t1", none, false⟩ ⟨1, 1, "t0", none, false⟩
     (by decide) (by decide) (by decide) (by decide)
     RegAlloc.Register.rcx RegAlloc.Register.rax (by decide) (by decide)⟩


/-! ## Theorems for claims C3, C9 and the C4 counterexample -/

/-- A block consisting of a label immediately targeted by a jump. -/
def c3Input : List Opt.IRInstruction :=
  [⟨"label", ["L0"], none⟩, ⟨"jump", ["L0"], none⟩]

/-- C3: the DCE keep-list (`store`, `call`, `return`, `return_void`,
`branch_false`, `jump`) does not contain `label`, and a `label` has no
result, so `IROptimizer.optimize` deletes a label even when a `jump`
references it — the spec says such labels remain. -/
theorem c3_dce_removes_referenced_label :
    Opt.optimize c3Input = [⟨"jump", ["L0"], none⟩] := by decide

/-- The input on which idempotence of the optimizer fails: the
unreferenced label separates the two identical `add`s into different
basic blocks, so the first run's per-block CSE cannot merge them; that
run's DCE deletes the label, and the second run then sees one block and
rewrites the second `add` into a `load`. -/
def c4Input : List Opt.IRInstruction :=
  [⟨"add", ["a", "b"], some "t0"⟩,
   ⟨"store", ["t0", "x"], none⟩,
   ⟨"label", ["L5"], none⟩,
   ⟨"add", ["a", "b"], some "t1"⟩,
   ⟨"store", ["t1", "y"], none⟩]

/-- C4 counterexample: `optimize` is not idempotent. -/
theorem c4_optimize_not_idempotent :
    Opt.optimize (Opt.optimize c4Input) ≠ Opt.optimize c4Input := by decide

/-- C9: in the constant-folding scan, a `div` whose two operands are
mapped constants with the right one equal to zero is passed through
unchanged: the same instruction is emitted, the `values` dict used for
the rest of the block gains no entry for its result, the changed flag is
untouched, and no exception is introduced at this instruction (the step
fails only if the rest of the block does). -/
theorem c9_div_by_zero_leaves_instruction_unchanged
    (values : List (String × ℚ)) (instr : Opt.IRInstruction)
    (rest : List Opt.IRInstruction) (a b : String) (t : List String) (l : ℚ)
    (hop : instr.op = "div") (hargs : instr.args = a :: b :: t)
    (hl : values.lookup a = some l) (hr : values.lookup b = some 0) :
    Opt.foldBlockGo values (instr :: rest) =
      (Opt.foldBlockGo values rest).map (fun p => (instr :: p.1, p.2)) := by
  obtain ⟨op, args, result⟩ := instr
  simp only at hop hargs
  subst hop hargs
  cases htr : Opt.truthyRes result with
  | true =>
    simp only [Opt.foldBlockGo, Opt.arithOps, htr]
    simp only [show (("div" == "load_const") = false) from rfl, Bool.false_and,
      Bool.if_false_left, Bool.and_true, Bool.not_false, List.contains_cons,
      beq_self_eq_true, Bool.or_true, Bool.true_or, Bool.true_and, hl, hr,
      if_true, beq_self_eq_true']
    cases hrest : Opt.foldBlockGo values rest with
    | ok p => simp [Except.map, Except.bind, hrest]
    | error e => simp [Except.map, Except.bind, hrest]
  | false =>
    simp only [Opt.foldBlockGo, htr]
    simp only [Bool.and_false, if_false]
    cases hrest : Opt.foldBlockGo values rest with
    | ok p => simp [Except.map, Except.bind, hrest]
    | error e => simp [Except.map, Except.bind, hrest]

/-- Witness for C9 at a concrete block: `div x y → t0` with
`x ↦ 1, y ↦ 0`. -/
theorem c9_div_by_zero_witness :
    Opt.foldBlockGo [("x", (1 : ℚ)), ("y", 0)]
        [⟨"div", ["x", "y"], some "t0"⟩] =
      (Opt.foldBlockGo [("x", (1 : ℚ)), ("y", 0)] []).map
        (fun p => (⟨"div", ["x", "y"], some "t0"⟩ :: p.1, p.2)) :=
  c9_div_by_zero_leaves_instruction_unchanged
    [("x", (1 : ℚ)), ("y", 0)] ⟨"div", ["x", "y"], some "t0"⟩ [] "x" "y" [] 1
    rfl rfl rfl rfl

/-- The instruction dicts for the C2 counterexample: `mov rax, 5`
followed by a label. -/
def c2Mov : X64.XInstr := { opcode := "mov", operands := [.str "rax", .int 5] }

def c2Label : X64.XInstr := { label := some "after" }

/-- C2: pass 1 sizes `mov rax, 5` at 3 bytes (opcode + ModRM + imm8), but
pass 2 emits the `B8+r` form with a full 8-byte immediate — 9 bytes and
no ModRM — so the label following it is recorded at offset 3 while the
code is 9 bytes long. -/
theorem c2_mov_imm_size_mismatch :
    X64.getInstructionSize c2Mov = 3 ∧
    (X64.assemble [c2Mov, c2Label]).map
        (fun st => (st.code, st.labels)) =
      .ok ([0xB8, 5, 0, 0, 0, 0, 0, 0, 0], [("after", 3)]) := by
  constructor
  · rfl
  · rfl

/-! ## Theorems for claims C1, C7, C8 -/

/-- C7 counterexample: the claim says any two names drawn from
{i8,i16,i32,i64,u8,u16,u32,u64,f32,f64} are compatible and that `unknown`
is compatible with anything, but `_are_types_compatible` rejects
`u8` vs `u16` and `unknown` vs `i32`. -/
theorem c7_compat_counterexample :
    Semantic.areTypesCompatible "u8" "u16" "assign" = false ∧
    Semantic.areTypesCompatible "unknown" "i32" "assign" = false := by
  constructor <;> rfl

/-- C7 (amended): `_are_types_compatible` returns true exactly when the
two names are identical or both lie in {i32, i64, f32, f64}; the other
numeric names and `unknown` get no special treatment. -/
theorem c7_types_compatible_iff (t1 t2 op : String) :
    Semantic.areTypesCompatible t1 t2 op =
      (t1 == t2 ||
        (Semantic.numericTypes.contains t1 && Semantic.numericTypes.contains t2)) := by
  unfold Semantic.areTypesCompatible
  by_cases h : t1 = t2
  · simp [h]
  · by_cases h1 : t1 ∈ Semantic.numericTypes <;>
      by_cases h2 : t2 ∈ Semantic.numericTypes <;>
        simp [h, h1, h2, List.elem_iff]

/-- C1: `WindowsBackend.compile` passes the bare string `"ExitProcess"`
where `add_import` expects a list, so `extend` splits it into eleven
one-character import names for `kernel32.dll` (and six for `msvcrt.dll`
when a string literal is present) — never the single name `ExitProcess`. -/
theorem c1_kernel32_import_is_split_into_chars :
    (PEGen.windowsBackendImports []).lookup "kernel32.dll" =
      some ["E", "x", "i", "t", "P", "r", "o", "c", "e", "s", "s"] ∧
    (PEGen.windowsBackendImports [("L0", "\"hi\"")]).lookup "msvcrt.dll" =
      some ["p", "r", "i", "n", "t", "f"] ∧
    (PEGen.windowsBackendImports []).lookup "kernel32.dll" ≠
      some ["ExitProcess"] := by
  refine ⟨by rfl, by rfl, by decide⟩

/-- C8: the file written by `PEGenerator.generate` does start with `MZ`,
but `_write_dos_header` emits the 64-byte stub *before* the `e_lfanew`
field, so the 32-bit value at file offset 0x3C is stub padding (zero) and
does not point at the PE signature, which actually sits at offset 0x46. -/
theorem c8_e_lfanew_not_at_0x3C :
    (PEGen.generatePE [] [] []).take 2 = [0x4D, 0x5A] ∧
    PEGen.readLe32 (PEGen.generatePE [] [] []) 0x3C = 0 ∧
    ((PEGen.generatePE [] [] []).drop 0).take 4 ≠ [0x50, 0x45, 0x00, 0x00] ∧
    ((PEGen.generatePE [] [] []).drop 0x46).take 4 = [0x50, 0x45, 0x00, 0x00] := by
  refine ⟨by rfl, by rfl, by decide, by rfl⟩


/-- C4 (amended): on straight-line IR — no `label` and no terminator, i.e.
a single basic block — the optimizer is idempotent.  The counterexample
shows the unrestricted claim is false. -/
theorem c4_optimize_idempotent_straightline (l : List Opt.IRInstruction)
    (h : Opt.straightLine l = true) :
    Opt.optimize (Opt.optimize l) = Opt.optimize l := by
  by_cases hnil : l = []
  · subst hnil
    rfl
  · have hbc := Opt.buildCfg_straight h hnil
    cases hloop : Opt.optLoop (Opt.blockMeasure [⟨l, [], [], 0⟩] + 1)
        [⟨l, [], [], 0⟩] with
    | error u =>
      have hopt : Opt.optimize l = l := by
        unfold Opt.optimize
        rw [hbc]
        simp only [Bind.bind, Except.bind]
        rw [hloop]
      rw [hopt]
      exact hopt
    | ok bsStar =>
      obtain ⟨r, hbsStar, hr⟩ :=
        @Opt.optLoop_singleton _ ⟨l, [], [], 0⟩ _ h hloop
      have hopt : Opt.optimize l = r := by
        unfold Opt.optimize
        rw [hbc]
        simp only [Bind.bind, Except.bind]
        rw [hloop]
        simp [Bind.bind, Except.bind, pure, Except.pure, hbsStar, Opt.flattenCfg]
      rw [hopt]
      by_cases hrnil : r = []
      · subst hrnil
        rfl
      · have hbc2 := Opt.buildCfg_straight hr hrnil
        have hfix := Opt.optLoop_fix hloop
        unfold Opt.optimize
        rw [hbc2]
        simp only [Bind.bind, Except.bind]
        rw [Opt.optLoop]
        rw [show ([⟨r, [], [], 0⟩] : List Opt.BasicBlock) = bsStar from by
          rw [hbsStar]]
        rw [hfix]
        simp [Bind.bind, Except.bind, pure, Except.pure, hbsStar, Opt.flattenCfg]

/-- The straight-line variant of `c4Input` (label removed). -/
def c4WitnessInput : List Opt.IRInstruction :=
  [⟨"add", ["a", "b"], some "t0"⟩,
   ⟨"store", ["t0", "x"], none⟩,
   ⟨"add", ["a", "b"], some "t1"⟩,
   ⟨"store", ["t1", "y"], none⟩]

/-- Witness for the amended C4 at a concrete straight-line block. -/
theorem c4_idempotent_witness :
    Opt.straightLine c4WitnessInput = true ∧
    Opt.optimize (Opt.optimize c4WitnessInput) = Opt.optimize c4WitnessInput :=
  ⟨by decide, c4_optimize_idempotent_straightline c4WitnessInput (by decide)⟩

theorem scanConsumesAll_cons (q c : Char) (cs : List Char) :
    Lexer.scanConsumesAll q (c :: cs) =
      (if c = q then false
       else if c = '\\' then
         (match cs with
          | [] => true
          | _ :: cs3 => Lexer.scanConsumesAll q cs3)
       else Lexer.scanConsumesAll q cs) := by
  cases cs <;> rfl

theorem scanStr_cons (q c : Char) (cs : List Char) :
    Lexer.scanStr q (c :: cs) =
      (if c = q then ([], c :: cs, 0)
       else if c = '\\' then
         (match cs with
          | [] => ([c], [], 2)
          | d :: cs3 =>
            let p := Lexer.scanStr q cs3
            (c :: d :: p.1, p.2.1, p.2.2 + 2))
       else
         let p := Lexer.scanStr q cs
         (c :: p.1, p.2.1, p.2.2 + 1)) := by
  cases cs <;> rfl

theorem scanStr_parts (q : Char) :
    ∀ n (cs : List Char), cs.length ≤ n → Lexer.scanConsumesAll q cs = true →
      (Lexer.scanStr q cs).1 = cs ∧ (Lexer.scanStr q cs).2.1 = ([] : List Char) := by
  intro n
  induction n with
  | zero =>
    intro cs hl _
    cases cs with
    | nil => exact ⟨rfl, rfl⟩
    | cons c cs2 => simp at hl
  | succ n ih =>
    intro cs hl h
    cases cs with
    | nil => exact ⟨rfl, rfl⟩
    | cons c cs2 =>
      rw [scanConsumesAll_cons] at h
      rw [scanStr_cons]
      by_cases hq : c = q
      · rw [if_pos hq] at h; exact absurd h (by simp)
      · rw [if_neg hq] at h ⊢
        by_cases hb : c = '\\'
        · rw [if_pos hb] at h ⊢
          cases cs2 with
          | nil => exact ⟨rfl, rfl⟩
          | cons d cs3 =>
            have h3 : Lexer.scanConsumesAll q cs3 = true := h
            have hl3 : cs3.length ≤ n := by
              simp only [List.length_cons] at hl; omega
            obtain ⟨h1, h2⟩ := ih cs3 hl3 h3
            refine ⟨?_, ?_⟩
            · show c :: d :: (Lexer.scanStr q cs3).1 = c :: d :: cs3
              rw [h1]
            · show (Lexer.scanStr q cs3).2.1 = ([] : List Char)
              exact h2
        · rw [if_neg hb] at h ⊢
          have hl2 : cs2.length ≤ n := by
            simp only [List.length_cons] at hl; omega
          obtain ⟨h1, h2⟩ := ih cs2 hl2 h
          refine ⟨?_, ?_⟩
          · show c :: (Lexer.scanStr q cs2).1 = c :: cs2
            rw [h1]
          · show (Lexer.scanStr q cs2).2.1 = ([] : List Char)
            exact h2

theorem scanStr_consumesAll (q : Char) (cs : List Char)
    (h : Lexer.scanConsumesAll q cs = true) :
    Lexer.scanStr q cs = (cs, [], Lexer.scanDelta q cs) := by
  obtain ⟨h1, h2⟩ := scanStr_parts q cs.length cs le_rfl h
  have he : Lexer.scanStr q cs =
      ((Lexer.scanStr q cs).1, (Lexer.scanStr q cs).2.1, (Lexer.scanStr q cs).2.2) := rfl
  rw [he, h1, h2]; rfl

/-- **C6** (refuted): the spec says `tokenize` never fails on any source
string, but on the source `"1.2.3"` the number branch collects the
digit-and-dot run `1.2.3` and hands it to `float(...)`, which raises
`ValueError` (modelled as `Except.error`): no token list is produced at
all, let alone one ending in a single EOF. -/
theorem c6_tokenize_fails_on_two_dot_numeral :
    Lexer.tokenize "1.2.3" = .error () := rfl

/-- **C10** (confirmed): when the opening quote of a string literal is
never matched (the scan consumes the whole rest of the source),
`tokenize` still returns normally, emits one STRING token whose lexeme
is the whole remaining source from the quote on, records no
unknown-character error, and appends the terminal EOF token. -/
theorem c10_unterminated_string_token_runs_to_eof
    (q : Char) (rest : List Char) (hq : q = '"' ∨ q = '\'')
    (h : Lexer.scanConsumesAll q rest = true) :
    Lexer.tokenize (String.mk (q :: rest)) =
      .ok ([⟨.STRING, .s (String.mk (q :: rest)), 1, 1⟩,
            ⟨.EOF, .s "", 1, 2 + Lexer.scanDelta q rest⟩], []) := by
  have hscan := scanStr_consumesAll q rest h
  rcases hq with rfl | rfl <;>
  · show Lexer.tokenizeGo (rest.length + 1 + 1) (_ :: rest) 1 1 = _
    rw [Lexer.tokenizeGo, hscan]
    rfl

theorem c10_unterminated_string_witness :
    (('"' : Char) = '"' ∨ ('"' : Char) = '\'') ∧
    Lexer.scanConsumesAll '"' "abc".data = true ∧
    Lexer.tokenize (String.mk ('"' :: "abc".data)) =
      .ok ([⟨.STRING, .s (String.mk ('"' :: "abc".data)), 1, 1⟩,
            ⟨.EOF, .s "", 1, 2 + Lexer.scanDelta '"' "abc".data⟩], []) :=
  ⟨Or.inl rfl, by decide,
    c10_unterminated_string_token_runs_to_eof '"' "abc".data (Or.inl rfl) (by decide)⟩


end MetaForge
